import Mathlib

/-! Lingyi chat-completion client: streaming combiner, stream decoder, defaults.

A shallow embedding of `llms/lingyi/internal/lingyiclient/completions.go`,
`llms/lingyi/internal/lingyiclient/lingyiclient.go` and
`llms/lingyi/lingyillm.go`.

Conventions of the embedding.

* A Go `string` is a Lean `String` (Unicode text); `[]byte(s)` is the list of
  its UTF-8 bytes. Where the bytes themselves matter, in the JSON form of a
  message, a string is the list of its bytes (`RawMessage`).
* A Go `error` is a `GoError`; a nil error is `none`.
* A function returning `(*T, error)` returns a pair of options, so that
  "nil response and non-nil error" can be stated as such.
* The streaming callback is a Go closure; its mutable state is passed
  explicitly (`σ`), and every invocation is recorded in the output.
* The unbuffered channel between the reading goroutine and the combiner is the
  list of values sent on it, in order; closing the channel is the end of the
  list.
* `encoding/json`, `bufio.Scanner` and the HTTP transport are library code:
  the decoders of response bodies and the transport are parameters, and a
  response body is given by the lines the scanner yields and the error it ends
  with. The JSON form of a `Message` is given by an encoder and a decoder
  written after encoding/json, on the bytes of the fields.
-/

namespace Lingyi

/-! ## Errors -/

/-- A Go error value: `new t` is `errors.New(t)` (or a `fmt.Errorf` without
`%w`), `wrap p e` is `fmt.Errorf(p + "%w", e)`. -/
inductive GoError where
  | new (text : String)
  | wrap (pfx : String) (inner : GoError)
  deriving DecidableEq, Repr

/-- The method `Error()`: the text of the error. -/
def GoError.Error : GoError → String
  | .new t => t
  | .wrap p e => p ++ e.Error

/-- The method `Unwrap()`: the wrapped error, if any. -/
def GoError.Unwrap : GoError → Option GoError
  | .new _ => none
  | .wrap _ e => some e

/-! ## Data model (completions.go, lines 14-82) -/

/-- A `float64` field. The code only stores and copies such fields, so the
value is kept as its IEEE-754 bit pattern; the zero value is `+0`. -/
structure Float64 where
  bits : Nat
  deriving DecidableEq, Repr

instance : Inhabited Float64 := ⟨⟨0⟩⟩

/-- A `context.Context`; the code only passes it on. -/
structure Context where
  id : Nat
  deriving DecidableEq, Repr

/-- The Go conversion `[]byte(s)`. -/
def bytesOf (s : String) : List UInt8 := s.toUTF8.data.toList

structure Message where
  Role : String
  Content : String
  deriving DecidableEq, Repr

/-- The type of `CompletionRequest.StreamingFunc`, with the closure's state
`σ` passed explicitly: given the context, the chunk and the state before the
call it gives the returned error and the state after the call. -/
abbrev StreamingFunc (σ : Type) := Context → List UInt8 → σ → Option GoError × σ

structure CompletionRequest (σ : Type) where
  Model : String
  Messages : List Message
  Temperature : Float64
  MaxTokens : Int
  TopP : Float64
  Stream : Bool
  StreamingFunc : Option (StreamingFunc σ)

structure CompletionResponseChoice where
  FinishReason : String
  Index : Float64
  Message : Message
  deriving DecidableEq, Repr

structure Usage where
  CompletionTokens : Float64
  PromptTokens : Float64
  TotalTokens : Float64
  deriving DecidableEq, Repr

structure CompletionResponse where
  ID : String
  Created : Float64
  Choices : List CompletionResponseChoice
  Model : String
  Object : String
  Usage : Usage
  deriving DecidableEq, Repr

structure Delta where
  Content : String
  deriving DecidableEq, Repr

structure StreamedChoice where
  Delta : Delta
  FinishReason : String
  Index : Float64
  deriving DecidableEq, Repr

/-- The struct `StreamedChatResponsePayload`: a chunk from the stream. -/
structure StreamedChatResponsePayload where
  Choices : List StreamedChoice
  Content : String
  Created : Float64
  ID : String
  LastOne : Bool
  Model : String
  Object : String
  Usage : Usage
  Error : Option GoError
  deriving DecidableEq, Repr

structure ErrorBody where
  Code : String
  Message : String
  Typ : String
  deriving DecidableEq, Repr

/-- The struct `errorMessage`; the untyped field `Param` is not read by the
code and is left out. -/
structure errorMessage where
  Error : ErrorBody
  deriving DecidableEq, Repr

/-! Zero values. -/

def Message.zero : Message := ⟨"", ""⟩

def Usage.zero : Usage := ⟨⟨0⟩, ⟨0⟩, ⟨0⟩⟩

def CompletionResponseChoice.zero : CompletionResponseChoice := ⟨"", ⟨0⟩, Message.zero⟩

def CompletionResponse.zero : CompletionResponse := ⟨"", ⟨0⟩, [], "", "", Usage.zero⟩

def StreamedChatResponsePayload.zero : StreamedChatResponsePayload :=
  ⟨[], "", ⟨0⟩, "", false, "", "", Usage.zero, none⟩

def errorMessage.zero : errorMessage := ⟨⟨"", "", ""⟩⟩

/-! ## combineStreamingChatResponse (completions.go, lines 191-219) -/

/-- What a streaming call leaves behind: the returned pair, the chunks the
callback was invoked with (in order) and the callback's state afterwards. -/
structure StreamResult (σ : Type) where
  response : Option CompletionResponse
  err : Option GoError
  calls : List (List UInt8)
  state : σ

/-- Lines 208-209: `response.Choices[0].Message.Content += choice.Delta.Content`
and `response.Choices[0].FinishReason = choice.FinishReason`. -/
def accumulate (response : CompletionResponse) (choice : StreamedChoice) : CompletionResponse :=
  { response with
    Choices := response.Choices.modifyHead fun c =>
      { c with
        Message := { c.Message with Content := c.Message.Content ++ choice.Delta.Content }
        FinishReason := choice.FinishReason } }

/-- The loop `for streamResponse := range responseChan` of lines 198-217, on
the list of values received from the channel. -/
def combineLoop {σ : Type} (ctx : Context) (payload : CompletionRequest σ) :
    List StreamedChatResponsePayload → CompletionResponse → List (List UInt8) → σ → StreamResult σ
  | [], response, calls, s => ⟨some response, none, calls, s⟩
  | streamResponse :: rest, response, calls, s =>
    match streamResponse.Error with
    | some e => ⟨none, some e, calls, s⟩
    | none =>
      match streamResponse.Choices with
      | [] => combineLoop ctx payload rest response calls s
      | choice :: _ =>
        let chunk := bytesOf choice.Delta.Content
        let response := accumulate response choice
        match payload.StreamingFunc with
        | none => combineLoop ctx payload rest response calls s
        | some f =>
          match f ctx chunk s with
          | (some err, s) =>
            ⟨none, some (.wrap "streaming func returned an error: " err), calls ++ [chunk], s⟩
          | (none, s) => combineLoop ctx payload rest response (calls ++ [chunk]) s

/-- The function `combineStreamingChatResponse`: the running response starts
with exactly one zero-valued choice. -/
def combineStreamingChatResponse {σ : Type} (ctx : Context) (payload : CompletionRequest σ)
    (responseChan : List StreamedChatResponsePayload) (s : σ) : StreamResult σ :=
  combineLoop ctx payload responseChan
    { CompletionResponse.zero with Choices := [CompletionResponseChoice.zero] } [] s

/-! ## The reading goroutine of parseStreamingChatResponse (completions.go, lines 157-189) -/

/-- A response body as `bufio.NewScanner(r.Body)` delivers it: the lines
`scanner.Text()` yields, one per successful `scanner.Scan()`, and the value of
`scanner.Err()` once `Scan` has returned false (nil at end of input). -/
structure Body where
  lines : List String
  err : Option GoError
  deriving DecidableEq, Repr

/-- Go's `unicode.IsSpace`. -/
def isSpace (c : Char) : Bool :=
  c = '\t' || c = '\n' || c = Char.ofNat 0x0B || c = Char.ofNat 0x0C || c = '\r' || c = ' '
    || c = Char.ofNat 0x85 || c = Char.ofNat 0xA0 || c = Char.ofNat 0x1680
    || (0x2000 ≤ c.toNat && c.toNat ≤ 0x200A)
    || c = Char.ofNat 0x2028 || c = Char.ofNat 0x2029 || c = Char.ofNat 0x202F
    || c = Char.ofNat 0x205F || c = Char.ofNat 0x3000

/-- Go's `strings.TrimSpace`. -/
def TrimSpace (s : String) : String :=
  ⟨((s.data.dropWhile isSpace).reverse.dropWhile isSpace).reverse⟩

/-- Go's `strings.TrimPrefix`. -/
def TrimPrefix (s pfx : String) : String :=
  if pfx.data.isPrefixOf s.data then ⟨s.data.drop pfx.data.length⟩ else s

/-- A call `json.NewDecoder(...).Decode(&v)` on a zero-valued `v`: the value
left in `v` and the returned error. -/
abbrev Decoder (ι α : Type) := ι → α × Option GoError

/-- Lines 168-169: the payload of a line. -/
def lineData (line : String) : String :=
  TrimSpace (TrimPrefix line "data:")

/-- What the reading goroutine does when every value it sends is received:
the values it sends on `responseChan` before closing it, and the payloads it
hands to the JSON decoder, both in order. -/
structure WorkerTrace where
  sent : List StreamedChatResponsePayload
  decoded : List String
  deriving DecidableEq, Repr

/-- The goroutine of lines 160-186. `scanErr` is `scanner.Err()`. -/
def streamWorker (decode : Decoder String StreamedChatResponsePayload)
    (scanErr : Option GoError) : List String → WorkerTrace
  | [] =>
    match scanErr with
    | some err =>
      ⟨[{ StreamedChatResponsePayload.zero with
            Error := some (.wrap "error reading streaming response: " err) }], []⟩
    | none => ⟨[], []⟩
  | line :: rest =>
    if line = "" then streamWorker decode scanErr rest
    else
      let data := lineData line
      if data = "[DONE]" then ⟨[], []⟩
      else
        match decode data with
        | (streamPayload, some err) =>
          ⟨[{ streamPayload with
                Error := some (.wrap "error decoding streaming response: " err) }], [data]⟩
        | (streamPayload, none) =>
          let r := streamWorker decode scanErr rest
          ⟨streamPayload :: r.sent, data :: r.decoded⟩

/-! ## HTTP exchange and client (lingyiclient.go) -/

structure HttpResponse where
  StatusCode : Int
  Body : Body
  deriving DecidableEq, Repr

structure HttpRequest where
  Method : String
  URL : String
  Header : List (String × String)
  Body : String
  deriving DecidableEq, Repr

/-- The interface `Doer`. -/
abbrev Doer := HttpRequest → Except GoError HttpResponse

def defaultBaseURL : String := "https://api.lingyiwanwu.com/v1"

def defaultCompletionModel : String := "yi-large"

def ErrEmptyResponse : GoError := .new "empty response"

structure Client where
  apikey : String
  model : String
  baseURL : String
  httpClient : Option Doer

/-- The library code the client calls, as parameters. -/
structure Lib (σ : Type) where
  /-- The call `json.Marshal(payload)`. -/
  marshal : CompletionRequest σ → Except GoError String
  /-- The call `http.NewRequestWithContext(ctx, method, url, body)`, before any header is set. -/
  newRequest : Context → String → String → String → Except GoError HttpRequest
  /-- The value `http.DefaultClient`. -/
  defaultClient : Doer
  /-- Decoding the body of a response into an `errorMessage`. -/
  decodeError : Decoder Body errorMessage
  /-- Decoding the body of a response into a `CompletionResponse`. -/
  decodeResponse : Decoder Body CompletionResponse
  /-- Decoding one payload of the stream into a `StreamedChatResponsePayload`. -/
  decodeChunk : Decoder String StreamedChatResponsePayload

/-- The method `setHeaders`; `Header.Set` replaces the values of the key. -/
def Client.setHeaders (c : Client) (req : HttpRequest) : HttpRequest :=
  let set (h : List (String × String)) (k v : String) := h.filter (fun kv => kv.1 ≠ k) ++ [(k, v)]
  { req with
    Header := set (set req.Header "Content-Type" "application/json")
      "Authorization" ("Bearer " ++ c.apikey) }

/-- The method `setCompletionDefaults` (completions.go, lines 84-104); it
writes through both pointers, so both values are returned. -/
def Client.setCompletionDefaults {σ : Type} (lib : Lib σ) (c : Client)
    (payload : CompletionRequest σ) : Client × CompletionRequest σ :=
  let payload := if payload.MaxTokens = 0 then { payload with MaxTokens := 256 } else payload
  let payload :=
    if payload.Model ≠ "" then payload
    else if c.model ≠ "" then { payload with Model := c.model }
    else { payload with Model := defaultCompletionModel }
  let c := if c.httpClient.isNone then { c with httpClient := some lib.defaultClient } else c
  (c, payload)

/-- The function `parseStreamingChatResponse`: the goroutine feeds the
combiner through the channel. -/
def parseStreamingChatResponse {σ : Type} (decode : Decoder String StreamedChatResponsePayload)
    (ctx : Context) (r : HttpResponse) (payload : CompletionRequest σ) (s : σ) : StreamResult σ :=
  combineStreamingChatResponse ctx payload (streamWorker decode r.Body.err r.Body.lines).sent s

/-- What a call on the client leaves behind: the client and the request after
the call (both are written through pointers), the returned pair, the requests
handed to the transport, and the callback's invocations and state. -/
structure CallResult (σ ρ : Type) where
  client : Client
  payload : CompletionRequest σ
  response : Option ρ
  err : Option GoError
  requests : List HttpRequest
  calls : List (List UInt8)
  state : σ

/-- A run-time panic on a nil dereference, given as an error value. -/
def nilDereference : GoError :=
  .new "panic: runtime error: invalid memory address or nil pointer dereference"

/-- The call `c.httpClient.Do(req)`; on a nil interface it is a run-time
panic (after `setCompletionDefaults` it cannot occur). -/
def Client.Do (c : Client) (req : HttpRequest) : Except GoError HttpResponse :=
  match c.httpClient with
  | some d => d req
  | none => .error nilDereference

/-- What lines 107-135 of `createCompletion` leave behind: the client and the
request after defaulting, the requests handed to the transport, and the
response received or the error returned early. -/
structure Exchange (σ : Type) where
  client : Client
  payload : CompletionRequest σ
  requests : List HttpRequest
  outcome : Except GoError HttpResponse

/-- Lines 107-135 of `createCompletion`: defaults, the forced `Stream` flag,
`json.Marshal`, the request, its headers and the exchange itself. -/
def Client.exchange {σ : Type} (lib : Lib σ) (c : Client) (ctx : Context)
    (payload : CompletionRequest σ) : Exchange σ :=
  let (c, payload) := c.setCompletionDefaults lib payload
  let payload := if payload.StreamingFunc.isSome then { payload with Stream := true } else payload
  match lib.marshal payload with
  | .error err => ⟨c, payload, [], .error err⟩
  | .ok payloadBytes =>
    let c := if c.baseURL = "" then { c with baseURL := defaultBaseURL } else c
    match lib.newRequest ctx "POST" (c.baseURL ++ "/chat/completions") payloadBytes with
    | .error err => ⟨c, payload, [], .error err⟩
    | .ok req =>
      let req := c.setHeaders req
      ⟨c, payload, [req], c.Do req⟩

/-- Lines 137-154 of `createCompletion`: what is returned for the response `r`. -/
def respond {σ : Type} (lib : Lib σ) (ctx : Context) (r : HttpResponse)
    (payload : CompletionRequest σ) (s : σ) : StreamResult σ :=
  if r.StatusCode ≠ 200 then
    let msg := "API returned unexpected status code: " ++ toString r.StatusCode
    match lib.decodeError r.Body with
    | (_, some _) => ⟨none, some (.new msg), [], s⟩
    | (errResp, none) => ⟨none, some (.new (msg ++ ": " ++ errResp.Error.Message)), [], s⟩
  else if payload.StreamingFunc.isSome then
    parseStreamingChatResponse lib.decodeChunk ctx r payload s
  else
    let (response, err) := lib.decodeResponse r.Body
    ⟨some response, err, [], s⟩

/-- The method `createCompletion` (completions.go, lines 106-155). -/
def Client.createCompletion {σ : Type} (lib : Lib σ) (c : Client) (ctx : Context)
    (payload : CompletionRequest σ) (s : σ) : CallResult σ CompletionResponse :=
  let x := c.exchange lib ctx payload
  match x.outcome with
  | .error err => ⟨x.client, x.payload, none, some err, x.requests, [], s⟩
  | .ok r =>
    let out := respond lib ctx r x.payload s
    ⟨x.client, x.payload, out.response, out.err, x.requests, out.calls, out.state⟩

/-- The struct `Completion`. -/
structure Completion where
  CompletionTokens : Float64
  PromptTokens : Float64
  TotalTokens : Float64
  Content : String
  deriving DecidableEq, Repr

/-- The method `CreateCompletion` (lingyiclient.go, lines 49-63). A nil
response with a nil error would be a nil dereference; `createCompletion`
never returns that pair. -/
def Client.CreateCompletion {σ : Type} (lib : Lib σ) (c : Client) (ctx : Context)
    (r : CompletionRequest σ) (s : σ) : CallResult σ Completion :=
  let out := c.createCompletion lib ctx r s
  let ret (response : Option Completion) (err : Option GoError) : CallResult σ Completion :=
    ⟨out.client, out.payload, response, err, out.requests, out.calls, out.state⟩
  match out.err, out.response with
  | some err, _ => ret none (some err)
  | none, none => ret none (some nilDereference)
  | none, some resp =>
    match resp.Choices with
    | [] => ret none (some ErrEmptyResponse)
    | choice :: _ =>
      ret (some
        { Content := choice.Message.Content
          CompletionTokens := resp.Usage.CompletionTokens
          PromptTokens := resp.Usage.PromptTokens
          TotalTokens := resp.Usage.TotalTokens }) none

/-! ## GenerateContent (lingyillm.go) -/

/-- Modelled from the spec: the type `llms.ChatMessageType` is declared outside
the files at hand; the spec gives the enumeration
system/human/generic/ai/function/tool. It is a string type in Go, so a value
outside the enumeration is `other`. -/
inductive ChatMessageType where
  | ChatMessageTypeAI
  | ChatMessageTypeHuman
  | ChatMessageTypeSystem
  | ChatMessageTypeGeneric
  | ChatMessageTypeFunction
  | ChatMessageTypeTool
  | other (name : String)
  deriving DecidableEq, Repr

/-- Modelled from the spec: the interface `llms.ContentPart` and its
implementations are declared outside the files at hand; the spec describes a
closed tagged variant of message parts, text and other content kinds. The code
only distinguishes `llms.TextContent` from every other part. -/
inductive ContentPart where
  | TextContent (Text : String)
  | nonText (kind : String)
  deriving DecidableEq, Repr

/-- Modelled from the spec: the struct `llms.MessageContent`, a role and a
sequence of parts. -/
structure MessageContent where
  Role : ChatMessageType
  Parts : List ContentPart
  deriving DecidableEq, Repr

/-- Modelled from the spec: the fields of `llms.CallOptions` that
`GenerateContent` reads. -/
structure CallOptions (σ : Type) where
  Model : String
  MaxTokens : Int
  TopP : Float64
  StreamingFunc : Option (StreamingFunc σ)

/-- A `llms.CallOption`. -/
abbrev CallOption (σ : Type) := CallOptions σ → CallOptions σ

/-- Modelled from the spec: the fields of `llms.ContentChoice` that
`GenerateContent` fills; `GenerationInfo` is a map, given by its entries. -/
structure ContentChoice where
  Content : String
  GenerationInfo : List (String × Float64)
  deriving DecidableEq, Repr

structure ContentResponse where
  Choices : List ContentChoice
  deriving DecidableEq, Repr

/-- The calls made on a `callbacks.Handler`. -/
inductive HandlerEvent where
  | HandleLLMGenerateContentStart (messages : List MessageContent)
  | HandleLLMError (err : GoError)
  | HandleLLMGenerateContentEnd (res : ContentResponse)
  deriving DecidableEq, Repr

/-- The struct `LLM`; `hasHandler` says whether `CallbacksHandler` is non-nil.
The field `options` is only read by `New`. -/
structure LLM where
  hasHandler : Bool
  client : Client

/-- The function `typeToRole` (lingyillm.go, lines 120-136). -/
def typeToRole : ChatMessageType → String
  | .ChatMessageTypeSystem => "system"
  | .ChatMessageTypeAI => "assistant"
  | .ChatMessageTypeHuman => "user"
  | .ChatMessageTypeGeneric => "user"
  | .ChatMessageTypeFunction => "function"
  | .ChatMessageTypeTool => "tool"
  | .other _ => ""

/-- The loop over `mc.Parts` (lingyillm.go, lines 63-77): the text found, or
the error returned from inside the loop. -/
def scanParts : List ContentPart → String → Bool → Except GoError String
  | [], text, _ => .ok text
  | .TextContent t :: rest, _, foundText =>
    if foundText then .error (.new "expecting a single Text content")
    else scanParts rest t true
  | .nonText _ :: _, _, _ => .error (.new "only support Text parts right now")

/-- The loop over `messages` (lingyillm.go, lines 57-81): the wire messages,
or the error `GenerateContent` returns from inside the loop. -/
def convertMessages : List MessageContent → List Message → Except GoError (List Message)
  | [], msgs => .ok msgs
  | mc :: rest, msgs =>
    match scanParts mc.Parts "" false with
    | .error err => .error err
    | .ok text => convertMessages rest (msgs ++ [{ Role := typeToRole mc.Role, Content := text }])

/-- What `GenerateContent` leaves behind. -/
structure GenerateResult (σ : Type) where
  client : Client
  response : Option ContentResponse
  err : Option GoError
  events : List HandlerEvent
  requests : List HttpRequest
  calls : List (List UInt8)
  state : σ

/-- The method `GenerateContent` (lingyillm.go, lines 47-118). -/
def LLM.GenerateContent {σ : Type} (lib : Lib σ) (o : LLM) (ctx : Context)
    (messages : List MessageContent) (options : List (CallOption σ)) (s : σ) : GenerateResult σ :=
  let ev (e : HandlerEvent) : List HandlerEvent := if o.hasHandler then [e] else []
  let started := ev (.HandleLLMGenerateContentStart messages)
  let opts : CallOptions σ := options.foldl (fun opts opt => opt opts) ⟨"", 0, ⟨0⟩, none⟩
  match convertMessages messages [] with
  | .error err => ⟨o.client, none, some err, started, [], [], s⟩
  | .ok msgs =>
    let req : CompletionRequest σ :=
      { Model := opts.Model
        Messages := msgs
        Temperature := ⟨0⟩
        MaxTokens := opts.MaxTokens
        TopP := opts.TopP
        Stream := opts.StreamingFunc.isSome
        StreamingFunc := opts.StreamingFunc }
    let out := o.client.CreateCompletion lib ctx req s
    match out.err, out.response with
    | some err, _ =>
      ⟨out.client, none, some err, started ++ ev (.HandleLLMError err),
        out.requests, out.calls, out.state⟩
    | none, none =>
      ⟨out.client, none, some nilDereference, started, out.requests, out.calls, out.state⟩
    | none, some response =>
      let resp : ContentResponse :=
        { Choices :=
            [{ Content := response.Content
               GenerationInfo :=
                 [("CompletionTokens", response.CompletionTokens),
                  ("PromptTokens", response.PromptTokens),
                  ("TotalTokens", response.TotalTokens)] }] }
      ⟨out.client, some resp, none, started ++ ev (.HandleLLMGenerateContentEnd resp),
        out.requests, out.calls, out.state⟩

/-! ## Notions used in the statements -/

/-- The first choice's delta content of every chunk that has a non-empty
choice list, in order. -/
def deltas (chunks : List StreamedChatResponsePayload) : List String :=
  chunks.filterMap fun c => c.Choices.head?.map (·.Delta.Content)

/-- The first choice's finish reason of every chunk that has a non-empty
choice list, in order. -/
def finishReasons (chunks : List StreamedChatResponsePayload) : List String :=
  chunks.filterMap fun c => c.Choices.head?.map (·.FinishReason)

/-- The values a callback returns when it is invoked on `chunks` in turn,
starting in state `s`. -/
def callbackReturns {σ : Type} (f : StreamingFunc σ) (ctx : Context) :
    σ → List (List UInt8) → List (Option GoError)
  | _, [] => []
  | s, chunk :: rest => (f ctx chunk s).1 :: callbackReturns f ctx (f ctx chunk s).2 rest

/-- The response the combiner builds: one choice with the given content and
finish reason, every other field zero. -/
def combined (content finishReason : String) : CompletionResponse :=
  { CompletionResponse.zero with
    Choices := [{ CompletionResponseChoice.zero with
                  FinishReason := finishReason
                  Message := { Role := "", Content := content } }] }

/-- The chunks decoded from the non-empty lines among `lines`. -/
def decodedChunks (decode : Decoder String StreamedChatResponsePayload) (lines : List String) :
    List StreamedChatResponsePayload :=
  (lines.filter fun l => decide (l ≠ "")).map fun l => (decode (lineData l)).1

/-- The payloads of the non-empty lines among `lines`. -/
def payloads (lines : List String) : List String :=
  (lines.filter fun l => decide (l ≠ "")).map lineData

/-! ## Values used in the witnesses -/

/-- A callback that counts its invocations and returns an error on invocation
number `failAt` (never, when `failAt = 0`). -/
def countingFunc (failAt : Nat) : StreamingFunc Nat := fun _ _ n =>
  (if n + 1 = failAt then some (.new "stop requested") else none, n + 1)

/-- A request with the callback `countingFunc failAt`. -/
def countingRequest (failAt : Nat) : CompletionRequest Nat :=
  { Model := "", Messages := [], Temperature := ⟨0⟩, MaxTokens := 0, TopP := ⟨0⟩, Stream := false,
    StreamingFunc := some (countingFunc failAt) }

/-- A chunk with one choice. -/
def chunkOf (content finishReason : String) : StreamedChatResponsePayload :=
  { StreamedChatResponsePayload.zero with Choices := [⟨⟨content⟩, finishReason, ⟨0⟩⟩] }

/-- The line of the test `TestParseStreamingCompletionResponse_FinishReason`. -/
def mockBody : String :=
  "data: \x7b\"choices\":[\x7b\"index\":0,\"delta\":\x7b\"role\":\"assistant\",\"content\":\"hello\"\x7d,\"finish_reason\":\"stop\"\x7d]\x7d"

/-- A decoder for the witnesses: it decodes the payload of `mockBody` and
reports an error on every other input. -/
def mockDecode : Decoder String StreamedChatResponsePayload := fun data =>
  if data = lineData mockBody then (chunkOf "hello" "stop", none)
  else (StreamedChatResponsePayload.zero, some (.new "invalid character"))

/-- Library functions for the witnesses: marshalling and request construction
succeed, the default transport answers every request with the given status,
and the body decodes as an error envelope when `envelope` is set. -/
def mockLib (status : Int) (envelope : Bool) : Lib Nat :=
  { marshal := fun _ => .ok "\x7b\x7d"
    newRequest := fun _ method url body => .ok ⟨method, url, [], body⟩
    defaultClient := fun _ => .ok ⟨status, ⟨["not found"], none⟩⟩
    decodeError := fun _ =>
      if envelope then (⟨⟨"404", "model not found", ""⟩⟩, none)
      else (errorMessage.zero, some (.new "invalid character"))
    decodeResponse := fun _ =>
      ({ CompletionResponse.zero with Choices := [⟨"stop", ⟨0⟩, ⟨"assistant", "hi"⟩⟩] }, none)
    decodeChunk := mockDecode }

/-- A client as `New()` returns it without options. -/
def newClient : Client := ⟨"", "", "", none⟩

/-! ## Notions used in the statements on the message conversion -/

/-- Whether a part is a `llms.TextContent`. -/
def ContentPart.isText : ContentPart → Bool
  | .TextContent _ => true
  | .nonText _ => false

/-- The content the conversion gives a message with the parts `parts`, when it
succeeds: the text of the part, or the empty string when there is no part. -/
def textOf : List ContentPart → String
  | [.TextContent t] => t
  | _ => ""

/-- The wire message the conversion gives `mc`, when it succeeds. -/
def wireMessage (mc : MessageContent) : Message :=
  { Role := typeToRole mc.Role, Content := textOf mc.Parts }

/-! ## The calls json.Marshal and json.Unmarshal on a Message

The package encoding/json is library code. Its behaviour on the struct
`Message` (two string fields, tags `role` and `content`, no `omitempty`) is
given here on bytes, as Go has strings: a byte is its value, a natural number
below 256. The encoder escapes as `json.Marshal` does (HTML escaping on, each
byte that is not part of a valid UTF-8 encoding written as the escape of
U+FFFD), and the
decoder reads a whole JSON text and stores the members of an object into the
struct. Error values of the decoder are not told apart by their text. -/

/-- The struct `Message` with its fields as Go has them, byte sequences. -/
structure RawMessage where
  Role : List Nat
  Content : List Nat
  deriving DecidableEq, Repr

/-- The bytes of a string of ASCII characters. -/
def ascii (s : String) : List Nat := s.data.map Char.toNat

/-- The constant `utf8.RuneError`, U+FFFD. -/
def RuneError : Nat := 0xFFFD

/-- Go's `utf8.DecodeRune`: the rune at the head of `p` and its width in
bytes; `(RuneError, 1)` when the head is not a valid encoding. The masks
`p0 & 0x1F`, `p0 & 0x0F`, `p0 & 0x07` and `b & 0x3F` are remainders, the shifts
products. A short input ends in one of the cases `[]`. -/
def DecodeRune : List Nat → Nat × Nat
  | [] => (RuneError, 0)
  | p0 :: rest =>
    if p0 < 0x80 then (p0, 1)
    else if p0 < 0xC2 ∨ 0xF4 < p0 then (RuneError, 1)
    else
      let lo := if p0 = 0xE0 then 0xA0 else if p0 = 0xF0 then 0x90 else 0x80
      let hi := if p0 = 0xED then 0x9F else if p0 = 0xF4 then 0x8F else 0xBF
      match rest with
      | [] => (RuneError, 1)
      | b1 :: rest1 =>
        if b1 < lo ∨ hi < b1 then (RuneError, 1)
        else if p0 < 0xE0 then ((p0 % 32) * 64 + b1 % 64, 2)
        else
          match rest1 with
          | [] => (RuneError, 1)
          | b2 :: rest2 =>
            if b2 < 0x80 ∨ 0xBF < b2 then (RuneError, 1)
            else if p0 < 0xF0 then ((p0 % 16) * 4096 + (b1 % 64) * 64 + b2 % 64, 3)
            else
              match rest2 with
              | [] => (RuneError, 1)
              | b3 :: _ =>
                if b3 < 0x80 ∨ 0xBF < b3 then (RuneError, 1)
                else ((p0 % 8) * 262144 + (b1 % 64) * 4096 + (b2 % 64) * 64 + b3 % 64, 4)

/-- Go's `utf8.EncodeRune`: the bytes of a rune; a surrogate or a value above
U+10FFFF is written as U+FFFD. -/
def EncodeRune (r : Nat) : List Nat :=
  if r < 0x80 then [r]
  else if r < 0x800 then [0xC0 + r / 64, 0x80 + r % 64]
  else if 0x10FFFF < r ∨ (0xD800 ≤ r ∧ r ≤ 0xDFFF) then [0xEF, 0xBF, 0xBD]
  else if r < 0x10000 then [0xE0 + r / 4096, 0x80 + r / 64 % 64, 0x80 + r % 64]
  else [0xF0 + r / 262144, 0x80 + r / 4096 % 64, 0x80 + r / 64 % 64, 0x80 + r % 64]

/-- Go's `utf8.ValidString`, with one unit of fuel per rune. -/
def validLoop : Nat → List Nat → Bool
  | 0, p => p.isEmpty
  | _ + 1, [] => true
  | fuel + 1, b :: rest =>
    if (DecodeRune (b :: rest)).1 = RuneError ∧ (DecodeRune (b :: rest)).2 = 1 then false
    else validLoop fuel ((b :: rest).drop (DecodeRune (b :: rest)).2)

/-- Whether a string is valid UTF-8. -/
def ValidString (s : List Nat) : Bool := validLoop s.length s

/-- The table `hex` of encoding/json. -/
def hexDigit (n : Nat) : Nat := (ascii "0123456789abcdef").getD n 0x30

/-- What `appendString` writes for a byte below 0x80 (HTML escaping on, as
`Marshal` has it; Go 1.22 and later for `\b` and `\f`). -/
def escapeByte (b : Nat) : List Nat :=
  if b = 0x22 ∨ b = 0x5C then [0x5C, b]
  else if b = 0x08 then [0x5C, 0x62]
  else if b = 0x0C then [0x5C, 0x66]
  else if b = 0x0A then [0x5C, 0x6E]
  else if b = 0x0D then [0x5C, 0x72]
  else if b = 0x09 then [0x5C, 0x74]
  else if b < 0x20 ∨ b = 0x3C ∨ b = 0x3E ∨ b = 0x26 then
    [0x5C, 0x75, 0x30, 0x30, hexDigit (b / 16), hexDigit (b % 16)]
  else [b]

/-- The loop of `appendString` of encoding/json, with one unit of fuel per
step: what is written between the quotes for the string `src`. -/
def appendStringLoop : Nat → List Nat → List Nat
  | 0, _ => []
  | _ + 1, [] => []
  | fuel + 1, b :: rest =>
    if b < 0x80 then escapeByte b ++ appendStringLoop fuel rest
    else if (DecodeRune ((b :: rest).take 4)).1 = RuneError
        ∧ (DecodeRune ((b :: rest).take 4)).2 = 1 then
      [0x5C, 0x75, 0x66, 0x66, 0x66, 0x64] ++ appendStringLoop fuel rest
    else if (DecodeRune ((b :: rest).take 4)).1 = 0x2028
        ∨ (DecodeRune ((b :: rest).take 4)).1 = 0x2029 then
      [0x5C, 0x75, 0x32, 0x30, 0x32, hexDigit ((DecodeRune ((b :: rest).take 4)).1 % 16)]
        ++ appendStringLoop fuel ((b :: rest).drop (DecodeRune ((b :: rest).take 4)).2)
    else
      (b :: rest).take (DecodeRune ((b :: rest).take 4)).2
        ++ appendStringLoop fuel ((b :: rest).drop (DecodeRune ((b :: rest).take 4)).2)

/-- A string as a JSON string literal (`appendString`). -/
def quote (s : List Nat) : List Nat :=
  0x22 :: (appendStringLoop s.length s ++ [0x22])

/-- The call `json.Marshal(msg)` on a `Message`: the fields in the order of
the declaration, each under the name of its tag, none omitted. It returns no
error on this struct. -/
def RawMessage.Marshal (m : RawMessage) : List Nat :=
  0x7B :: (quote (ascii "role") ++ 0x3A :: (quote m.Role ++ 0x2C ::
    (quote (ascii "content") ++ 0x3A :: (quote m.Content ++ [0x7D]))))

/-- A JSON value; strings, keys and numbers as their bytes. -/
inductive JValue where
  | null
  | bool (b : Bool)
  | number (literal : List Nat)
  | string (s : List Nat)
  | array (elems : List JValue)
  | object (members : List (List Nat × JValue))

/-- The value of a hexadecimal digit. -/
def hexVal (c : Nat) : Option Nat :=
  if 0x30 ≤ c ∧ c ≤ 0x39 then some (c - 0x30)
  else if 0x61 ≤ c ∧ c ≤ 0x66 then some (c - 0x61 + 10)
  else if 0x41 ≤ c ∧ c ≤ 0x46 then some (c - 0x41 + 10)
  else none

def hex4 (a b c d : Nat) : Option Nat :=
  match hexVal a, hexVal b, hexVal c, hexVal d with
  | some a, some b, some c, some d => some (((a * 16 + b) * 16 + c) * 16 + d)
  | _, _, _, _ => none

/-- The byte a two-byte escape stands for. -/
def simpleEscape (c : Nat) : Option Nat :=
  if c = 0x22 ∨ c = 0x5C ∨ c = 0x2F then some c
  else if c = 0x62 then some 0x08
  else if c = 0x66 then some 0x0C
  else if c = 0x6E then some 0x0A
  else if c = 0x72 then some 0x0D
  else if c = 0x74 then some 0x09
  else none

/-- The function `getu4` of encoding/json: the code unit of an escape
`\uXXXX` at the head of the input, with what follows it. -/
def getu4 : List Nat → Option (Nat × List Nat)
  | bs :: u :: a :: b :: x :: d :: rest =>
    if bs = 0x5C ∧ u = 0x75 then (hex4 a b x d).map fun n => (n, rest) else none
  | _ => none

/-- The body of a JSON string literal, after the opening quote (`unquote` of
encoding/json): the decoded bytes and the input after the closing quote. One
unit of fuel per step. -/
def unquoteBody : Nat → List Nat → List Nat → Option (List Nat × List Nat)
  | 0, _, _ => none
  | _ + 1, [], _ => none
  | fuel + 1, c :: rest, acc =>
    if c = 0x22 then some (acc, rest)
    else if c = 0x5C then
      match rest with
      | [] => none
      | e :: rest1 =>
        if e = 0x75 then
          match getu4 (c :: rest) with
          | none => none
          | some (n, rest2) =>
            if 0xD800 ≤ n ∧ n < 0xDC00 then
              match getu4 rest2 with
              | some (m, rest3) =>
                if 0xDC00 ≤ m ∧ m < 0xE000 then
                  unquoteBody fuel rest3
                    (acc ++ EncodeRune (0x10000 + (n - 0xD800) * 0x400 + (m - 0xDC00)))
                else unquoteBody fuel rest2 (acc ++ EncodeRune RuneError)
              | none => unquoteBody fuel rest2 (acc ++ EncodeRune RuneError)
            else if 0xDC00 ≤ n ∧ n < 0xE000 then
              unquoteBody fuel rest2 (acc ++ EncodeRune RuneError)
            else unquoteBody fuel rest2 (acc ++ EncodeRune n)
        else
          match simpleEscape e with
          | some ch => unquoteBody fuel rest1 (acc ++ [ch])
          | none => none
    else if c < 0x20 then none
    else if c < 0x80 then unquoteBody fuel rest (acc ++ [c])
    else
      unquoteBody fuel ((c :: rest).drop (DecodeRune (c :: rest)).2)
        (acc ++ EncodeRune (DecodeRune (c :: rest)).1)

/-- JSON white space. -/
def isJSONSpace (c : Nat) : Bool := c = 0x20 || c = 0x09 || c = 0x0D || c = 0x0A

def skipWS (input : List Nat) : List Nat := input.dropWhile isJSONSpace

def isDigit (c : Nat) : Bool := 0x30 ≤ c && c ≤ 0x39

/-- A JSON number at the head of the input: its text and what follows. -/
def scanNumber (input : List Nat) : Option (List Nat × List Nat) :=
  let (sign, r0) := match input with
    | [] => ([], [])
    | c :: r => if c = 0x2D then ([c], r) else ([], c :: r)
  let intPart : Option (List Nat × List Nat) :=
    match r0 with
    | [] => none
    | d :: r =>
      if d = 0x30 then some ([d], r)
      else if isDigit d then some (d :: r.takeWhile isDigit, r.dropWhile isDigit)
      else none
  match intPart with
  | none => none
  | some (ip, r1) =>
    let frac : Option (List Nat × List Nat) :=
      match r1 with
      | [] => some ([], [])
      | c :: r =>
        if c = 0x2E then
          match r with
          | [] => none
          | d :: r2 =>
            if isDigit d then some (c :: d :: r2.takeWhile isDigit, r2.dropWhile isDigit)
            else none
        else some ([], c :: r)
    match frac with
    | none => none
    | some (fp, r2) =>
      let exp : Option (List Nat × List Nat) :=
        match r2 with
        | [] => some ([], [])
        | e :: r =>
          if e = 0x65 ∨ e = 0x45 then
            let (es, r3) := match r with
              | [] => ([], [])
              | c :: r4 => if c = 0x2B ∨ c = 0x2D then ([c], r4) else ([], c :: r4)
            match r3 with
            | [] => none
            | d :: r5 =>
              if isDigit d then
                some (e :: es ++ d :: r5.takeWhile isDigit, r5.dropWhile isDigit)
              else none
          else some ([], e :: r)
      match exp with
      | none => none
      | some (ep, r3) => some (sign ++ ip ++ fp ++ ep, r3)

/-- The nesting limit `maxNestingDepth` of encoding/json. -/
def maxNestingDepth : Nat := 10000

mutual
/-- A JSON value at the head of the input (no leading white space). -/
def parseValue : Nat → Nat → List Nat → Option (JValue × List Nat)
  | 0, _, _ => none
  | fuel + 1, depth, input =>
    match input with
    | [] => none
    | c :: rest =>
      if c = 0x7B then
        if depth ≥ maxNestingDepth then none
        else
          match skipWS rest with
          | [] => none
          | c2 :: rest2 =>
            if c2 = 0x7D then some (.object [], rest2)
            else parseMembers fuel (depth + 1) (c2 :: rest2) []
      else if c = 0x5B then
        if depth ≥ maxNestingDepth then none
        else
          match skipWS rest with
          | [] => none
          | c2 :: rest2 =>
            if c2 = 0x5D then some (.array [], rest2)
            else parseElems fuel (depth + 1) (c2 :: rest2) []
      else if c = 0x22 then
        match unquoteBody rest.length rest [] with
        | some (s, rest2) => some (.string s, rest2)
        | none => none
      else if c = 0x74 then
        if (ascii "rue").isPrefixOf rest then some (.bool true, rest.drop 3) else none
      else if c = 0x66 then
        if (ascii "alse").isPrefixOf rest then some (.bool false, rest.drop 4) else none
      else if c = 0x6E then
        if (ascii "ull").isPrefixOf rest then some (.null, rest.drop 3) else none
      else
        match scanNumber input with
        | some (lit, rest2) => some (.number lit, rest2)
        | none => none
/-- The members of an object, from a key on, up to the closing brace. -/
def parseMembers : Nat → Nat → List Nat → List (List Nat × JValue) → Option (JValue × List Nat)
  | 0, _, _, _ => none
  | fuel + 1, depth, input, acc =>
    match input with
    | [] => none
    | c :: rest =>
      if c = 0x22 then
        match unquoteBody rest.length rest [] with
        | none => none
        | some (key, rest1) =>
          match skipWS rest1 with
          | [] => none
          | c1 :: rest2 =>
            if c1 = 0x3A then
              match parseValue fuel depth (skipWS rest2) with
              | none => none
              | some (v, rest3) =>
                match skipWS rest3 with
                | [] => none
                | c3 :: rest4 =>
                  if c3 = 0x2C then parseMembers fuel depth (skipWS rest4) (acc ++ [(key, v)])
                  else if c3 = 0x7D then some (.object (acc ++ [(key, v)]), rest4)
                  else none
            else none
      else none
/-- The elements of an array, from a value on, up to the closing bracket. -/
def parseElems : Nat → Nat → List Nat → List JValue → Option (JValue × List Nat)
  | 0, _, _, _ => none
  | fuel + 1, depth, input, acc =>
    match parseValue fuel depth input with
    | none => none
    | some (v, rest) =>
      match skipWS rest with
      | [] => none
      | c :: rest1 =>
        if c = 0x2C then parseElems fuel depth (skipWS rest1) (acc ++ [v])
        else if c = 0x5D then some (.array (acc ++ [v]), rest1)
        else none
end

/-- A whole JSON text: one value between optional white space. -/
def parseJSON (data : List Nat) : Option JValue :=
  match parseValue (data.length + 1) 0 (skipWS data) with
  | some (v, rest) => if skipWS rest = [] then some v else none
  | none => none

/-- ASCII upper case, the folding of field names for the letters of
"role" and "content". -/
def foldName (key : List Nat) : List Nat :=
  key.map fun c => if 0x61 ≤ c ∧ c ≤ 0x7A then c - 32 else c

/-- The fields of `Message`. -/
inductive MessageField where
  | Role
  | Content
  deriving DecidableEq, Repr

/-- The field a key of an object is stored in: the field whose tag is the key,
else the field whose tag is the key up to case. -/
def fieldOf (key : List Nat) : Option MessageField :=
  if key = ascii "role" then some .Role
  else if key = ascii "content" then some .Content
  else if foldName key = ascii "ROLE" then some .Role
  else if foldName key = ascii "CONTENT" then some .Content
  else none

/-- Storing one member of an object into a `Message`. -/
def RawMessage.decodeField (m : RawMessage) (key : List Nat) (v : JValue) :
    RawMessage × Option GoError :=
  match fieldOf key, v with
  | none, _ => (m, none)
  | some _, .null => (m, none)
  | some .Role, .string s => ({ m with Role := s }, none)
  | some .Content, .string s => ({ m with Content := s }, none)
  | some .Role, _ =>
    (m, some (.new "json: cannot unmarshal into Go struct field Message.role of type string"))
  | some .Content, _ =>
    (m, some (.new "json: cannot unmarshal into Go struct field Message.content of type string"))

/-- Storing a JSON value into a `Message`; the first type error is kept and
decoding goes on. -/
def RawMessage.decode (m : RawMessage) : JValue → RawMessage × Option GoError
  | .null => (m, none)
  | .object members =>
    members.foldl
      (fun acc kv =>
        let r := acc.1.decodeField kv.1 kv.2
        (r.1, if acc.2.isSome then acc.2 else r.2))
      (m, none)
  | _ => (m, some (.new "json: cannot unmarshal into Go value of type lingyiclient.Message"))

/-- The call `json.Unmarshal(data, &m)`: the value left in `m` and the error. -/
def RawMessage.Unmarshal (data : List Nat) (m : RawMessage) : RawMessage × Option GoError :=
  match parseJSON data with
  | none => (m, some (.new "invalid character"))
  | some v => m.decode v

/-- What writing a string as a JSON literal and reading it back gives: each
byte that is not part of a valid UTF-8 encoding is replaced by the bytes of
U+FFFD. -/
def coerceLoop : Nat → List Nat → List Nat
  | 0, _ => []
  | _ + 1, [] => []
  | fuel + 1, b :: rest =>
    if (DecodeRune (b :: rest)).1 = RuneError ∧ (DecodeRune (b :: rest)).2 = 1 then
      [0xEF, 0xBF, 0xBD] ++ coerceLoop fuel rest
    else
      (b :: rest).take (DecodeRune (b :: rest)).2
        ++ coerceLoop fuel ((b :: rest).drop (DecodeRune (b :: rest)).2)

def coerceUTF8 (s : List Nat) : List Nat := coerceLoop s.length s

/-- A message of the embedding as Go has it: the UTF-8 bytes of its fields. -/
def Message.raw (m : Message) : RawMessage :=
  ⟨(bytesOf m.Role).map UInt8.toNat, (bytesOf m.Content).map UInt8.toNat⟩

/-! ## Lemmas on the combiner -/

theorem foldl_append_string (l : List String) (acc : String) :
    List.foldl (fun r s => r ++ s) acc l = acc ++ List.foldl (fun r s => r ++ s) "" l := by
  induction l generalizing acc with
  | nil => simp
  | cons a l ih =>
    simp only [List.foldl_cons]
    rw [ih (acc ++ a), ih ("" ++ a)]
    simp [String.append_assoc]

theorem join_cons (a : String) (l : List String) : String.join (a :: l) = a ++ String.join l := by
  unfold String.join
  simp only [List.foldl_cons]
  rw [foldl_append_string]
  simp

theorem accumulate_combined (c f : String) (choice : StreamedChoice) :
    accumulate (combined c f) choice
      = combined (c ++ choice.Delta.Content) choice.FinishReason := by
  rfl

theorem deltas_cons_nil (ch : StreamedChatResponsePayload) (rest : List StreamedChatResponsePayload)
    (h : ch.Choices = []) : deltas (ch :: rest) = deltas rest := by
  simp [deltas, h]

theorem deltas_cons_choice (ch : StreamedChatResponsePayload)
    (rest : List StreamedChatResponsePayload) (choice : StreamedChoice) (tl : List StreamedChoice)
    (h : ch.Choices = choice :: tl) : deltas (ch :: rest) = choice.Delta.Content :: deltas rest := by
  simp [deltas, h]

theorem finishReasons_cons_nil (ch : StreamedChatResponsePayload)
    (rest : List StreamedChatResponsePayload)
    (h : ch.Choices = []) : finishReasons (ch :: rest) = finishReasons rest := by
  simp [finishReasons, h]

theorem finishReasons_cons_choice (ch : StreamedChatResponsePayload)
    (rest : List StreamedChatResponsePayload) (choice : StreamedChoice) (tl : List StreamedChoice)
    (h : ch.Choices = choice :: tl) :
    finishReasons (ch :: rest) = choice.FinishReason :: finishReasons rest := by
  simp [finishReasons, h]

theorem getLastD_cons_eq (a d : String) (l : List String) :
    (a :: l).getLastD d = l.getLastD a := by
  cases l <;> rfl

/-- The loop on chunks without error marker, with a callback that returns nil
on each of them: the response, the error and the invocations. -/
theorem combineLoop_ok {σ : Type} (ctx : Context) (payload : CompletionRequest σ)
    (chunks : List StreamedChatResponsePayload) :
    ∀ (c f : String) (calls : List (List UInt8)) (s : σ),
      (∀ ch ∈ chunks, ch.Error = none) →
      (∀ g, payload.StreamingFunc = some g →
        ∀ r ∈ callbackReturns g ctx s ((deltas chunks).map bytesOf), r = none) →
      (combineLoop ctx payload chunks (combined c f) calls s).response
          = some (combined (c ++ String.join (deltas chunks)) ((finishReasons chunks).getLastD f))
        ∧ (combineLoop ctx payload chunks (combined c f) calls s).err = none
        ∧ (combineLoop ctx payload chunks (combined c f) calls s).calls
          = calls ++ (if payload.StreamingFunc.isSome then (deltas chunks).map bytesOf else []) := by
  induction chunks with
  | nil =>
    intro c f calls s _ _
    simp [combineLoop, deltas, finishReasons, String.join]
  | cons ch rest ih =>
    intro c f calls s hErr hCb
    have hE : ch.Error = none := hErr ch (List.mem_cons_self _ _)
    have hRest : ∀ x ∈ rest, x.Error = none := fun x hx => hErr x (List.mem_cons_of_mem _ hx)
    cases hC : ch.Choices with
    | nil =>
      have ih1 := ih c f calls s hRest (by
        intro g hg r hr
        exact hCb g hg r (by rw [deltas_cons_nil ch rest hC]; exact hr))
      rw [deltas_cons_nil ch rest hC, finishReasons_cons_nil ch rest hC]
      simpa only [combineLoop, hE, hC] using ih1
    | cons choice tl =>
      rw [deltas_cons_choice ch rest choice tl hC, finishReasons_cons_choice ch rest choice tl hC,
        getLastD_cons_eq, join_cons, ← String.append_assoc]
      cases hF : payload.StreamingFunc with
      | none =>
        have ih1 := ih (c ++ choice.Delta.Content) choice.FinishReason calls s hRest (by
          intro g hg; rw [hF] at hg; cases hg)
        simpa only [combineLoop, hE, hC, hF, accumulate_combined] using ih1
      | some g =>
        have hAll := hCb g hF
        rw [deltas_cons_choice ch rest choice tl hC] at hAll
        simp only [List.map_cons, callbackReturns, List.mem_cons, forall_eq_or_imp] at hAll
        obtain ⟨h1, h2⟩ := hAll
        have ih1 := ih (c ++ choice.Delta.Content) choice.FinishReason
          (calls ++ [bytesOf choice.Delta.Content]) (g ctx (bytesOf choice.Delta.Content) s).2
          hRest (by
            intro g2 hg2 r hr
            rw [hF] at hg2
            cases hg2
            exact h2 r hr)
        have hpair : g ctx (bytesOf choice.Delta.Content) s
            = (none, (g ctx (bytesOf choice.Delta.Content) s).2) := by
          rw [← h1]
        rw [hF] at ih1
        simp only [combineLoop, hE, hC, hF, accumulate_combined]
        rw [hpair]
        simpa using ih1

theorem callbackReturns_length {σ : Type} (g : StreamingFunc σ) (ctx : Context)
    (l : List (List UInt8)) : ∀ s : σ, (callbackReturns g ctx s l).length = l.length := by
  induction l with
  | nil => intro s; rfl
  | cons a l ih => intro s; simp [callbackReturns, ih]

/-- The loop when the callback returns an error on the last first-choice delta
of `pre` and nil before: it stops there, whatever follows. -/
theorem combineLoop_abort {σ : Type} (ctx : Context) (payload : CompletionRequest σ)
    (g : StreamingFunc σ) (hF : payload.StreamingFunc = some g) (e : GoError)
    (post : List StreamedChatResponsePayload) (pre : List StreamedChatResponsePayload) :
    ∀ (n : Nat) (response : CompletionResponse) (calls : List (List UInt8)) (s : σ),
      (∀ ch ∈ pre, ch.Error = none) →
      callbackReturns g ctx s ((deltas pre).map bytesOf) = List.replicate n none ++ [some e] →
      (combineLoop ctx payload (pre ++ post) response calls s).response = none
        ∧ (combineLoop ctx payload (pre ++ post) response calls s).err
          = some (.wrap "streaming func returned an error: " e)
        ∧ (combineLoop ctx payload (pre ++ post) response calls s).calls
          = calls ++ (deltas pre).map bytesOf := by
  induction pre with
  | nil =>
    intro n response calls s _ hret
    have := congrArg List.length hret
    simp [deltas, callbackReturns] at this
  | cons ch rest ih =>
    intro n response calls s hErr hret
    have hE : ch.Error = none := hErr ch (List.mem_cons_self _ _)
    have hRest : ∀ x ∈ rest, x.Error = none := fun x hx => hErr x (List.mem_cons_of_mem _ hx)
    cases hC : ch.Choices with
    | nil =>
      rw [deltas_cons_nil ch rest hC] at hret ⊢
      have ih1 := ih n response calls s hRest hret
      simpa only [List.cons_append, combineLoop, hE, hC] using ih1
    | cons choice tl =>
      rw [deltas_cons_choice ch rest choice tl hC] at hret ⊢
      simp only [List.map_cons, callbackReturns] at hret
      cases n with
      | zero =>
        simp only [List.replicate_zero, List.nil_append, List.cons.injEq] at hret
        obtain ⟨h1, h2⟩ := hret
        have hlen := congrArg List.length h2
        rw [callbackReturns_length] at hlen
        simp only [List.length_map, List.length_nil, List.length_eq_zero] at hlen
        have hpair : g ctx (bytesOf choice.Delta.Content) s
            = (some e, (g ctx (bytesOf choice.Delta.Content) s).2) := by
          rw [← h1]
        simp only [List.cons_append, combineLoop, hE, hC, hF]
        rw [hpair]
        simp [hlen]
      | succ m =>
        simp only [List.replicate_succ, List.cons_append, List.cons.injEq] at hret
        obtain ⟨h1, h2⟩ := hret
        have hpair : g ctx (bytesOf choice.Delta.Content) s
            = (none, (g ctx (bytesOf choice.Delta.Content) s).2) := by
          rw [← h1]
        have ih1 := ih m (accumulate response choice) (calls ++ [bytesOf choice.Delta.Content])
          (g ctx (bytesOf choice.Delta.Content) s).2 hRest h2
        simp only [List.cons_append, combineLoop, hE, hC, hF]
        rw [hpair]
        simpa using ih1

/-- The loop, when it ends without error, returns the running response: the
content is the concatenation of the first-choice deltas and the finish reason
is the last one written. -/
theorem combineLoop_response_of_no_err {σ : Type} (ctx : Context) (payload : CompletionRequest σ)
    (chunks : List StreamedChatResponsePayload) :
    ∀ (c f : String) (calls : List (List UInt8)) (s : σ),
      (combineLoop ctx payload chunks (combined c f) calls s).err = none →
      (combineLoop ctx payload chunks (combined c f) calls s).response
        = some (combined (c ++ String.join (deltas chunks)) ((finishReasons chunks).getLastD f)) := by
  induction chunks with
  | nil =>
    intro c f calls s _
    simp [combineLoop, deltas, finishReasons, String.join]
  | cons ch rest ih =>
    intro c f calls s h
    cases hE : ch.Error with
    | some e => simp [combineLoop, hE] at h
    | none =>
      cases hC : ch.Choices with
      | nil =>
        rw [deltas_cons_nil ch rest hC, finishReasons_cons_nil ch rest hC]
        simp only [combineLoop, hE, hC] at h ⊢
        exact ih c f calls s h
      | cons choice tl =>
        rw [deltas_cons_choice ch rest choice tl hC, finishReasons_cons_choice ch rest choice tl hC,
          getLastD_cons_eq, join_cons, ← String.append_assoc]
        cases hF : payload.StreamingFunc with
        | none =>
          simp only [combineLoop, hE, hC, hF, accumulate_combined] at h ⊢
          exact ih _ _ calls s h
        | some g =>
          simp only [combineLoop, hE, hC, hF, accumulate_combined] at h ⊢
          cases hg : g ctx (bytesOf choice.Delta.Content) s with
          | mk r s2 =>
            cases r with
            | some e => simp [hg] at h
            | none =>
              simp only [hg] at h ⊢
              exact ih _ _ _ s2 h

theorem combined_zero :
    ({ CompletionResponse.zero with Choices := [CompletionResponseChoice.zero] } : CompletionResponse)
      = combined "" "" := rfl

/-- The loop on chunks without error marker, on which the callback returns
nil, followed by a chunk with an error marker: that error is returned. -/
theorem combineLoop_error_after {σ : Type} (ctx : Context) (payload : CompletionRequest σ)
    (bad : StreamedChatResponsePayload) (e : GoError) (hbad : bad.Error = some e)
    (post : List StreamedChatResponsePayload) (good : List StreamedChatResponsePayload) :
    ∀ (response : CompletionResponse) (calls : List (List UInt8)) (s : σ),
      (∀ ch ∈ good, ch.Error = none) →
      (∀ g, payload.StreamingFunc = some g →
        ∀ r ∈ callbackReturns g ctx s ((deltas good).map bytesOf), r = none) →
      (combineLoop ctx payload (good ++ bad :: post) response calls s).response = none
        ∧ (combineLoop ctx payload (good ++ bad :: post) response calls s).err = some e
        ∧ (combineLoop ctx payload (good ++ bad :: post) response calls s).calls
          = calls ++ (if payload.StreamingFunc.isSome then (deltas good).map bytesOf else []) := by
  induction good with
  | nil =>
    intro response calls s _ _
    simp [combineLoop, hbad, deltas]
  | cons ch rest ih =>
    intro response calls s hErr hCb
    have hE : ch.Error = none := hErr ch (List.mem_cons_self _ _)
    have hRest : ∀ x ∈ rest, x.Error = none := fun x hx => hErr x (List.mem_cons_of_mem _ hx)
    cases hC : ch.Choices with
    | nil =>
      have ih1 := ih response calls s hRest (by
        intro g hg r hr
        exact hCb g hg r (by rw [deltas_cons_nil ch rest hC]; exact hr))
      rw [deltas_cons_nil ch rest hC]
      simpa only [List.cons_append, combineLoop, hE, hC] using ih1
    | cons choice tl =>
      rw [deltas_cons_choice ch rest choice tl hC]
      cases hF : payload.StreamingFunc with
      | none =>
        have ih1 := ih (accumulate response choice) calls s hRest (by
          intro g hg; rw [hF] at hg; cases hg)
        rw [hF] at ih1
        simpa only [List.cons_append, combineLoop, hE, hC, hF] using ih1
      | some g =>
        have hAll := hCb g hF
        rw [deltas_cons_choice ch rest choice tl hC] at hAll
        simp only [List.map_cons, callbackReturns, List.mem_cons, forall_eq_or_imp] at hAll
        obtain ⟨h1, h2⟩ := hAll
        have ih1 := ih (accumulate response choice)
          (calls ++ [bytesOf choice.Delta.Content]) (g ctx (bytesOf choice.Delta.Content) s).2
          hRest (by
            intro g2 hg2 r hr
            rw [hF] at hg2
            cases hg2
            exact h2 r hr)
        have hpair : g ctx (bytesOf choice.Delta.Content) s
            = (none, (g ctx (bytesOf choice.Delta.Content) s).2) := by
          rw [← h1]
        rw [hF] at ih1
        simp only [List.cons_append, combineLoop, hE, hC, hF]
        rw [hpair]
        simpa using ih1

/-! ## Lemmas on the reading goroutine -/

theorem lineData_empty : lineData "" = "" := by decide

theorem ne_empty_of_done (line : String) (h : lineData line = "[DONE]") : line ≠ "" := by
  intro h0
  rw [h0, lineData_empty] at h
  exact absurd h (by decide)

/-- The goroutine skips empty lines. -/
theorem streamWorker_filter (decode : Decoder String StreamedChatResponsePayload)
    (scanErr : Option GoError) (lines : List String) :
    streamWorker decode scanErr lines
      = streamWorker decode scanErr (lines.filter fun l => decide (l ≠ "")) := by
  induction lines with
  | nil => rfl
  | cons line rest ih =>
    by_cases h : line = ""
    · simp only [h, streamWorker, if_true, ne_eq, not_true_eq_false, decide_False,
        Bool.false_eq_true, not_false_eq_true, List.filter_cons_of_neg]
      exact ih
    · rw [List.filter_cons_of_pos (by simpa using h)]
      simp only [streamWorker, h, if_false]
      rw [ih]

/-- The goroutine stops at the sentinel: what follows is not read, and the
trace is that of the lines before it at end of input. -/
theorem streamWorker_done (decode : Decoder String StreamedChatResponsePayload)
    (scanErr : Option GoError) (done : String) (hdone : lineData done = "[DONE]")
    (L2 : List String) (L1 : List String) :
    streamWorker decode scanErr (L1 ++ done :: L2) = streamWorker decode none L1 := by
  have hne := ne_empty_of_done done hdone
  induction L1 with
  | nil => simp [streamWorker, hne, hdone]
  | cons line rest ih =>
    by_cases h : line = ""
    · simpa only [List.cons_append, h, streamWorker, if_true, List.append_eq] using ih
    · simp only [List.cons_append, streamWorker, h, if_false, List.append_eq]
      rw [ih]

/-- The goroutine on lines that all decode, none of them the sentinel,
followed by further lines. -/
theorem streamWorker_append (decode : Decoder String StreamedChatResponsePayload)
    (scanErr : Option GoError) (rest : List String) (pre : List String)
    (hpre : ∀ l ∈ pre, l ≠ "" → lineData l ≠ "[DONE]" ∧ (decode (lineData l)).2 = none) :
    streamWorker decode scanErr (pre ++ rest)
      = ⟨decodedChunks decode pre ++ (streamWorker decode scanErr rest).sent,
         payloads pre ++ (streamWorker decode scanErr rest).decoded⟩ := by
  induction pre with
  | nil => simp [decodedChunks, payloads]
  | cons line tl ih =>
    have ih1 := ih (fun l hl => hpre l (List.mem_cons_of_mem _ hl))
    by_cases h : line = ""
    · simp only [List.cons_append, h, streamWorker, if_true, List.append_eq]
      rw [ih1]
      simp [decodedChunks, payloads]
    · obtain ⟨h1, h2⟩ := hpre line (List.mem_cons_self _ _) h
      have hpair : decode (lineData line) = ((decode (lineData line)).1, none) := by
        rw [← h2]
      simp only [List.cons_append, streamWorker, h, if_false, h1, List.append_eq]
      rw [hpair, ih1]
      simp [decodedChunks, payloads, h]

/-! ## The claims on the streaming path -/

theorem combined_choices (c f : String) :
    (combined c f).Choices = [⟨f, ⟨0⟩, ⟨"", c⟩⟩] := rfl

/-- C1: when no chunk carries an error marker and the callback returns nil on
every chunk it is given, `combineStreamingChatResponse` returns a nil error and
a response with exactly one choice, whose content is the concatenation in
arrival order of the first-choice delta content of the chunks with a non-empty
choice list; the callback is invoked once per such chunk, in that order, with
the bytes of that delta content. -/
theorem combine_concatenates_deltas {σ : Type} (ctx : Context) (payload : CompletionRequest σ)
    (chunks : List StreamedChatResponsePayload) (s : σ)
    (hErr : ∀ ch ∈ chunks, ch.Error = none)
    (hCb : ∀ g, payload.StreamingFunc = some g →
      ∀ r ∈ callbackReturns g ctx s ((deltas chunks).map bytesOf), r = none) :
    (combineStreamingChatResponse ctx payload chunks s).err = none
      ∧ (∃ resp, (combineStreamingChatResponse ctx payload chunks s).response = some resp
          ∧ resp.Choices.length = 1
          ∧ resp.Choices.map (·.Message.Content) = [String.join (deltas chunks)])
      ∧ (payload.StreamingFunc.isSome →
          (combineStreamingChatResponse ctx payload chunks s).calls
            = (deltas chunks).map bytesOf) := by
  have h := combineLoop_ok ctx payload chunks "" "" [] s hErr hCb
  rw [← combined_zero] at h
  obtain ⟨h1, h2, h3⟩ := h
  refine ⟨h2, ⟨_, h1, ?_, ?_⟩, ?_⟩
  · simp [combined_choices]
  · simp [combined_choices]
  · intro hs
    simpa [combineStreamingChatResponse, hs] using h3

theorem combine_concatenates_deltas_witness :
    (∀ ch ∈ [chunkOf "he" "", StreamedChatResponsePayload.zero, chunkOf "llo" "stop"],
        ch.Error = none)
      ∧ (combineStreamingChatResponse ⟨0⟩ (countingRequest 0)
          [chunkOf "he" "", StreamedChatResponsePayload.zero, chunkOf "llo" "stop"] 0).calls
        = [bytesOf "he", bytesOf "llo"] := by
  have hErr : ∀ ch ∈ [chunkOf "he" "", StreamedChatResponsePayload.zero, chunkOf "llo" "stop"],
      ch.Error = none := by decide
  refine ⟨hErr, ?_⟩
  exact (combine_concatenates_deltas ⟨0⟩ (countingRequest 0) _ 0 hErr (by
    intro g hg
    cases hg
    decide)).2.2 rfl

theorem streamWorker_single (decode : Decoder String StreamedChatResponsePayload) (line : String)
    (chunk : StreamedChatResponsePayload) (hline : line ≠ "") (hdata : lineData line ≠ "[DONE]")
    (hdec : decode (lineData line) = (chunk, none)) :
    (streamWorker decode none [line]).sent = [chunk] := by
  simp [streamWorker, hline, hdata, hdec]

/-- C2: the finish reason is last-write-wins. When a chunk sequence is combined
without error and contains a chunk with a non-empty choice list, the finish
reason of the sole choice of the response is the first-choice finish reason of
the last such chunk (empty or not). In particular a body that consists of one
event line, decoded to a chunk whose first choice has delta content `c` and
finish reason `f`, yields a response whose sole choice has content `c` and
finish reason `f`. -/
theorem finish_reason_last_write_wins {σ : Type} (ctx : Context) (payload : CompletionRequest σ)
    (chunks : List StreamedChatResponsePayload) (s : σ)
    (hOk : (combineStreamingChatResponse ctx payload chunks s).err = none)
    (hne : finishReasons chunks ≠ [])
    (decode : Decoder String StreamedChatResponsePayload) (status : Int) (line c f : String)
    (index : Float64) (others : List StreamedChoice) (chunk : StreamedChatResponsePayload)
    (hline : line ≠ "") (hdata : lineData line ≠ "[DONE]")
    (hdec : decode (lineData line) = (chunk, none)) (hmark : chunk.Error = none)
    (hchoice : chunk.Choices = ⟨⟨c⟩, f, index⟩ :: others)
    (hCb : ∀ g, payload.StreamingFunc = some g → (g ctx (bytesOf c) s).1 = none) :
    (∃ resp, (combineStreamingChatResponse ctx payload chunks s).response = some resp
        ∧ resp.Choices.map (·.FinishReason) = [(finishReasons chunks).getLast hne])
      ∧ (parseStreamingChatResponse decode ctx ⟨status, ⟨[line], none⟩⟩ payload s).err = none
      ∧ ∃ resp, (parseStreamingChatResponse decode ctx ⟨status, ⟨[line], none⟩⟩ payload s).response
            = some resp
          ∧ resp.Choices.map (fun ch => (ch.Message.Content, ch.FinishReason)) = [(c, f)] := by
  constructor
  · have h := combineLoop_response_of_no_err ctx payload chunks "" "" [] s
      (by rw [← combined_zero]; exact hOk)
    rw [← combined_zero] at h
    refine ⟨_, h, ?_⟩
    simp only [combined_choices, List.map_cons, List.map_nil, List.cons.injEq, and_true]
    rw [List.getLastD_eq_getLast?, List.getLast?_eq_getLast _ hne]
    rfl
  · have hsent := streamWorker_single decode line chunk hline hdata hdec
    have hd : deltas [chunk] = [c] := by simp [deltas, hchoice]
    have hf : finishReasons [chunk] = [f] := by simp [finishReasons, hchoice]
    have h := combineLoop_ok ctx payload [chunk] "" "" [] s
      (by intro ch hch; rw [List.mem_singleton] at hch; rw [hch]; exact hmark)
      (by
        intro g hg r hr
        rw [hd] at hr
        simp only [List.map_cons, List.map_nil, callbackReturns, List.mem_singleton] at hr
        rw [hr]
        exact hCb g hg)
    rw [← combined_zero, hd, hf] at h
    obtain ⟨h1, h2, _⟩ := h
    refine ⟨?_, combined ("" ++ String.join [c]) ([f].getLastD ""), ?_, ?_⟩
    · simpa only [parseStreamingChatResponse, hsent] using h2
    · simpa only [parseStreamingChatResponse, hsent] using h1
    · simp [combined_choices, String.join]

theorem finish_reason_last_write_wins_witness :
    (combineStreamingChatResponse ⟨0⟩ (countingRequest 0)
        [chunkOf "a" "length", chunkOf "b" ""] 0).err = none
      ∧ finishReasons [chunkOf "a" "length", chunkOf "b" ""] ≠ []
      ∧ mockBody ≠ "" ∧ lineData mockBody ≠ "[DONE]"
      ∧ (∃ resp, (combineStreamingChatResponse ⟨0⟩ (countingRequest 0)
            [chunkOf "a" "length", chunkOf "b" ""] 0).response = some resp
          ∧ resp.Choices.map (·.FinishReason) = [""])
      ∧ ∃ resp, (parseStreamingChatResponse mockDecode ⟨0⟩ ⟨200, ⟨[mockBody], none⟩⟩
            (countingRequest 0) 0).response = some resp
          ∧ resp.Choices.map (fun ch => (ch.Message.Content, ch.FinishReason))
            = [("hello", "stop")] := by
  have hOk : (combineStreamingChatResponse ⟨0⟩ (countingRequest 0)
      [chunkOf "a" "length", chunkOf "b" ""] 0).err = none := by decide
  have hne : finishReasons [chunkOf "a" "length", chunkOf "b" ""] ≠ [] := by decide
  have hline : mockBody ≠ "" := by decide
  have hdata : lineData mockBody ≠ "[DONE]" := by decide
  have h := finish_reason_last_write_wins ⟨0⟩ (countingRequest 0)
    [chunkOf "a" "length", chunkOf "b" ""] 0 hOk hne mockDecode 200 mockBody "hello" "stop" ⟨0⟩ []
    (chunkOf "hello" "stop") hline hdata (by simp [mockDecode]) rfl rfl
    (by intro g hg; cases hg; rfl)
  exact ⟨hOk, hne, hline, hdata, h.1, h.2.2⟩

/-- C3: a decode failure discards the accumulation. When a non-empty line that
is not the sentinel fails to decode, every line before it is empty or decodes
(none being the sentinel), and the callback returns nil on every earlier event,
`parseStreamingChatResponse` returns a nil response and the decode error of
that line wrapped with "error decoding streaming response: "; the decoder is
given the payloads of the non-empty lines up to that line and no other, and the
callback is invoked for the events before that line and no other. The
hypothesis `hTag` is the tag `json:"-"` on the field `Error`. -/
theorem decode_failure_discards {σ : Type} (decode : Decoder String StreamedChatResponsePayload)
    (ctx : Context) (payload : CompletionRequest σ) (s : σ) (status : Int)
    (scanErr : Option GoError) (pre post : List String) (bad : String) (err : GoError)
    (hTag : ∀ data, (decode data).1.Error = none)
    (hpre : ∀ l ∈ pre, l ≠ "" → lineData l ≠ "[DONE]" ∧ (decode (lineData l)).2 = none)
    (hbad : bad ≠ "") (hdata : lineData bad ≠ "[DONE]")
    (hfail : (decode (lineData bad)).2 = some err)
    (hCb : ∀ g, payload.StreamingFunc = some g →
      ∀ r ∈ callbackReturns g ctx s ((deltas (decodedChunks decode pre)).map bytesOf), r = none) :
    (parseStreamingChatResponse decode ctx ⟨status, ⟨pre ++ bad :: post, scanErr⟩⟩ payload s).response
        = none
      ∧ (parseStreamingChatResponse decode ctx ⟨status, ⟨pre ++ bad :: post, scanErr⟩⟩ payload s).err
        = some (.wrap "error decoding streaming response: " err)
      ∧ (streamWorker decode scanErr (pre ++ bad :: post)).decoded = payloads pre ++ [lineData bad]
      ∧ (parseStreamingChatResponse decode ctx ⟨status, ⟨pre ++ bad :: post, scanErr⟩⟩ payload s).calls
        = (if payload.StreamingFunc.isSome
            then (deltas (decodedChunks decode pre)).map bytesOf else []) := by
  have hpair : decode (lineData bad) = ((decode (lineData bad)).1, some err) := by
    rw [← hfail]
  have hw : streamWorker decode scanErr (bad :: post)
      = ⟨[{ (decode (lineData bad)).1 with
              Error := some (.wrap "error decoding streaming response: " err) }],
          [lineData bad]⟩ := by
    simp only [streamWorker, hbad, if_false, hdata]
    rw [hpair]
  have hall := streamWorker_append decode scanErr (bad :: post) pre hpre
  rw [hw] at hall
  have hgood : ∀ ch ∈ decodedChunks decode pre, ch.Error = none := by
    intro ch hch
    simp only [decodedChunks, List.mem_map] at hch
    obtain ⟨l, _, rfl⟩ := hch
    exact hTag _
  have h := combineLoop_error_after ctx payload
    { (decode (lineData bad)).1 with
      Error := some (.wrap "error decoding streaming response: " err) }
    (.wrap "error decoding streaming response: " err) rfl [] (decodedChunks decode pre)
    { CompletionResponse.zero with Choices := [CompletionResponseChoice.zero] } [] s hgood hCb
  simp only [parseStreamingChatResponse, combineStreamingChatResponse, hall]
  refine ⟨h.1, h.2.1, trivial, ?_⟩
  simpa using h.2.2

theorem decode_failure_discards_witness :
    (∀ data, (mockDecode data).1.Error = none)
      ∧ (parseStreamingChatResponse mockDecode ⟨0⟩
          ⟨200, ⟨["", mockBody] ++ "data: oops" :: [mockBody], none⟩⟩ (countingRequest 0) 0).response
        = none
      ∧ (parseStreamingChatResponse mockDecode ⟨0⟩
          ⟨200, ⟨["", mockBody] ++ "data: oops" :: [mockBody], none⟩⟩ (countingRequest 0) 0).calls
        = [bytesOf "hello"] := by
  have hTag : ∀ data, (mockDecode data).1.Error = none := by
    intro data
    unfold mockDecode
    split <;> rfl
  have h := decode_failure_discards mockDecode ⟨0⟩ (countingRequest 0) 0 200 none
    ["", mockBody] [mockBody] "data: oops" (.new "invalid character") hTag
    (by decide) (by decide) (by decide) (by decide)
    (by intro g hg; cases hg; decide)
  exact ⟨hTag, h.1, by simpa [decodedChunks, deltas, mockDecode, chunkOf] using h.2.2.2⟩

/-- C4: for every `k ≥ 1`, when no chunk up to the `k`-th chunk with a
non-empty choice list carries an error marker (`pre` is the sequence up to that
chunk, `post` what follows) and the callback returns nil on its first `k - 1`
invocations and the error `e` on its `k`-th, `combineStreamingChatResponse`
returns a nil response and `e` wrapped with the text
"streaming func returned an error: ", after exactly `k` invocations. -/
theorem callback_failure_aborts {σ : Type} (ctx : Context) (payload : CompletionRequest σ)
    (g : StreamingFunc σ) (k : Nat) (pre post : List StreamedChatResponsePayload) (e : GoError)
    (s : σ) (_hk : 1 ≤ k) (hF : payload.StreamingFunc = some g)
    (hErr : ∀ ch ∈ pre, ch.Error = none) (hlen : (deltas pre).length = k)
    (hret : callbackReturns g ctx s ((deltas pre).map bytesOf)
      = List.replicate (k - 1) none ++ [some e]) :
    (combineStreamingChatResponse ctx payload (pre ++ post) s).response = none
      ∧ (combineStreamingChatResponse ctx payload (pre ++ post) s).err
        = some (.wrap "streaming func returned an error: " e)
      ∧ ((combineStreamingChatResponse ctx payload (pre ++ post) s).err.map GoError.Error)
        = some ("streaming func returned an error: " ++ e.Error)
      ∧ ((combineStreamingChatResponse ctx payload (pre ++ post) s).err.bind GoError.Unwrap) = some e
      ∧ (combineStreamingChatResponse ctx payload (pre ++ post) s).calls
        = (deltas pre).map bytesOf
      ∧ (combineStreamingChatResponse ctx payload (pre ++ post) s).calls.length = k := by
  have h := combineLoop_abort ctx payload g hF e post pre (k - 1)
    { CompletionResponse.zero with Choices := [CompletionResponseChoice.zero] } [] s hErr hret
  obtain ⟨h1, h2, h3⟩ := h
  simp only [List.nil_append] at h3
  refine ⟨h1, h2, ?_, ?_, h3, ?_⟩
  · simp only [combineStreamingChatResponse, h2]
    rfl
  · simp only [combineStreamingChatResponse, h2]
    rfl
  · simp only [combineStreamingChatResponse, h3, List.length_map, hlen]

theorem callback_failure_aborts_witness :
    (∀ ch ∈ [chunkOf "a" "", StreamedChatResponsePayload.zero, chunkOf "b" ""], ch.Error = none)
      ∧ callbackReturns (countingFunc 2) ⟨0⟩ 0
          ((deltas [chunkOf "a" "", StreamedChatResponsePayload.zero, chunkOf "b" ""]).map bytesOf)
        = List.replicate (2 - 1) none ++ [some (.new "stop requested")]
      ∧ (combineStreamingChatResponse ⟨0⟩ (countingRequest 2)
          ([chunkOf "a" "", StreamedChatResponsePayload.zero, chunkOf "b" ""]
            ++ [chunkOf "c" "stop"]) 0).response = none
      ∧ (combineStreamingChatResponse ⟨0⟩ (countingRequest 2)
          ([chunkOf "a" "", StreamedChatResponsePayload.zero, chunkOf "b" ""]
            ++ [chunkOf "c" "stop"]) 0).calls.length = 2 := by
  have hErr : ∀ ch ∈ [chunkOf "a" "", StreamedChatResponsePayload.zero, chunkOf "b" ""],
      ch.Error = none := by decide
  have hret : callbackReturns (countingFunc 2) ⟨0⟩ 0
      ((deltas [chunkOf "a" "", StreamedChatResponsePayload.zero, chunkOf "b" ""]).map bytesOf)
      = List.replicate (2 - 1) none ++ [some (.new "stop requested")] := by decide
  have h := callback_failure_aborts ⟨0⟩ (countingRequest 2) (countingFunc 2) 2
    [chunkOf "a" "", StreamedChatResponsePayload.zero, chunkOf "b" ""] [chunkOf "c" "stop"]
    (.new "stop requested") 0 (by decide) rfl hErr (by decide) hret
  exact ⟨hErr, hret, h.1, h.2.2.2.2.2⟩

/-- C5: processing stops at the sentinel. For all lists of lines `L1` and `L2`
and every line `done` whose payload (prefix "data:" stripped, white space
trimmed) is "[DONE]", `parseStreamingChatResponse` on the body `L1`, `done`,
`L2` gives the same response, error, callback invocations and callback state as
on the body `L1` alone read to its end, and the decoder is given the same
payloads: nothing in `L2` is read. -/
theorem done_sentinel_stops {σ : Type} (decode : Decoder String StreamedChatResponsePayload)
    (ctx : Context) (payload : CompletionRequest σ) (s : σ) (status : Int)
    (scanErr : Option GoError) (L1 L2 : List String) (done : String)
    (hdone : lineData done = "[DONE]") :
    parseStreamingChatResponse decode ctx ⟨status, ⟨L1 ++ done :: L2, scanErr⟩⟩ payload s
        = parseStreamingChatResponse decode ctx ⟨status, ⟨L1, none⟩⟩ payload s
      ∧ (streamWorker decode scanErr (L1 ++ done :: L2)).decoded
        = (streamWorker decode none L1).decoded := by
  simp only [parseStreamingChatResponse, streamWorker_done decode scanErr done hdone L2 L1,
    and_self]

theorem done_sentinel_stops_witness :
    lineData "data: [DONE]" = "[DONE]"
      ∧ parseStreamingChatResponse mockDecode ⟨0⟩
          ⟨200, ⟨[mockBody] ++ "data: [DONE]" :: ["data: oops", mockBody], none⟩⟩
          (countingRequest 0) 0
        = parseStreamingChatResponse mockDecode ⟨0⟩ ⟨200, ⟨[mockBody], none⟩⟩
          (countingRequest 0) 0 :=
  ⟨by decide,
    (done_sentinel_stops mockDecode ⟨0⟩ (countingRequest 0) 0 200 none [mockBody]
      ["data: oops", mockBody] "data: [DONE]" (by decide)).1⟩

/-- C6: empty lines are ignored. Two bodies that differ only by empty lines
(inserted or removed anywhere) and end the same way give the same response,
error, callback invocations and callback state, and the decoder is given the
same payloads. -/
theorem blank_lines_ignored {σ : Type} (decode : Decoder String StreamedChatResponsePayload)
    (ctx : Context) (payload : CompletionRequest σ) (s : σ) (status : Int)
    (scanErr : Option GoError) (lines1 lines2 : List String)
    (h : (lines1.filter fun l => decide (l ≠ "")) = (lines2.filter fun l => decide (l ≠ ""))) :
    parseStreamingChatResponse decode ctx ⟨status, ⟨lines1, scanErr⟩⟩ payload s
        = parseStreamingChatResponse decode ctx ⟨status, ⟨lines2, scanErr⟩⟩ payload s
      ∧ (streamWorker decode scanErr lines1).decoded
        = (streamWorker decode scanErr lines2).decoded := by
  have h1 := streamWorker_filter decode scanErr lines1
  have h2 := streamWorker_filter decode scanErr lines2
  rw [h] at h1
  simp only [parseStreamingChatResponse, h1, h2, and_self]

theorem blank_lines_ignored_witness :
    (["", mockBody, "", "", "data: [DONE]", ""].filter fun l => decide (l ≠ ""))
        = ([mockBody, "data: [DONE]"].filter fun l => decide (l ≠ ""))
      ∧ parseStreamingChatResponse mockDecode ⟨0⟩
          ⟨200, ⟨["", mockBody, "", "", "data: [DONE]", ""], none⟩⟩ (countingRequest 0) 0
        = parseStreamingChatResponse mockDecode ⟨0⟩
          ⟨200, ⟨[mockBody, "data: [DONE]"], none⟩⟩ (countingRequest 0) 0 :=
  ⟨by decide,
    (blank_lines_ignored mockDecode ⟨0⟩ (countingRequest 0) 0 200 none
      ["", mockBody, "", "", "data: [DONE]", ""] [mockBody, "data: [DONE]"] (by decide)).1⟩

theorem setCompletionDefaults_frame {σ : Type} (lib : Lib σ) (c : Client)
    (payload : CompletionRequest σ) :
    (c.setCompletionDefaults lib payload).2.StreamingFunc = payload.StreamingFunc := by
  simp only [Client.setCompletionDefaults]
  split_ifs <;> rfl

/-! ## The claims on defaults, status handling and message conversion -/

/-- C10: defaulting is idempotent and does not override what the caller
supplied. Applying `setCompletionDefaults` to its own result changes nothing;
a non-zero `MaxTokens`, a non-empty request `Model` and a non-nil client
transport are kept; the messages, temperature, top-p, stream flag and callback
of the request and the key, model and base URL of the client are unchanged. -/
theorem setCompletionDefaults_idempotent {σ : Type} (lib : Lib σ) (c : Client)
    (payload : CompletionRequest σ) :
    (c.setCompletionDefaults lib payload).1.setCompletionDefaults lib
        (c.setCompletionDefaults lib payload).2 = c.setCompletionDefaults lib payload
      ∧ (payload.MaxTokens ≠ 0 →
          (c.setCompletionDefaults lib payload).2.MaxTokens = payload.MaxTokens)
      ∧ (payload.Model ≠ "" → (c.setCompletionDefaults lib payload).2.Model = payload.Model)
      ∧ (c.httpClient ≠ none → (c.setCompletionDefaults lib payload).1.httpClient = c.httpClient)
      ∧ (c.setCompletionDefaults lib payload).2.Messages = payload.Messages
      ∧ (c.setCompletionDefaults lib payload).2.Temperature = payload.Temperature
      ∧ (c.setCompletionDefaults lib payload).2.TopP = payload.TopP
      ∧ (c.setCompletionDefaults lib payload).2.Stream = payload.Stream
      ∧ (c.setCompletionDefaults lib payload).2.StreamingFunc = payload.StreamingFunc
      ∧ (c.setCompletionDefaults lib payload).1.apikey = c.apikey
      ∧ (c.setCompletionDefaults lib payload).1.model = c.model
      ∧ (c.setCompletionDefaults lib payload).1.baseURL = c.baseURL := by
  obtain ⟨apikey, model, baseURL, httpClient⟩ := c
  obtain ⟨Model, Messages, Temperature, MaxTokens, TopP, Stream, StreamingFunc⟩ := payload
  have hd : defaultCompletionModel ≠ "" := by decide
  cases httpClient <;> by_cases h1 : MaxTokens = 0 <;> by_cases h2 : Model = ""
    <;> by_cases h3 : model = ""
    <;> simp [Client.setCompletionDefaults, h1, h2, h3, hd]

/-- C9: when the exchange yields a response whose status code is not 200,
`createCompletion` returns a nil response and a non-nil error. If the body
decodes as the error envelope, the error text is
"API returned unexpected status code: <s>: <m>" with `m` the message of the
envelope; if the body does not decode, the error text is exactly
"API returned unexpected status code: <s>", and the decode error is neither
returned nor wrapped. -/
theorem unexpected_status_error {σ : Type} (lib : Lib σ) (c : Client) (ctx : Context)
    (payload : CompletionRequest σ) (s : σ) (r : HttpResponse)
    (hr : (c.exchange lib ctx payload).outcome = .ok r) (hs : r.StatusCode ≠ 200) :
    (c.createCompletion lib ctx payload s).response = none
      ∧ (c.createCompletion lib ctx payload s).err ≠ none
      ∧ ((c.createCompletion lib ctx payload s).err.bind GoError.Unwrap) = none
      ∧ ((lib.decodeError r.Body).2 = none →
          (c.createCompletion lib ctx payload s).err.map GoError.Error
            = some ("API returned unexpected status code: " ++ toString r.StatusCode ++ ": "
                ++ (lib.decodeError r.Body).1.Error.Message))
      ∧ ((lib.decodeError r.Body).2 ≠ none →
          (c.createCompletion lib ctx payload s).err.map GoError.Error
            = some ("API returned unexpected status code: " ++ toString r.StatusCode)) := by
  cases hd : lib.decodeError r.Body with
  | mk errResp de =>
    cases de with
    | none => simp [Client.createCompletion, hr, respond, hs, hd, GoError.Error, GoError.Unwrap]
    | some e => simp [Client.createCompletion, hr, respond, hs, hd, GoError.Error, GoError.Unwrap]

theorem unexpected_status_error_witness :
    (newClient.exchange (mockLib 404 true) ⟨0⟩ (countingRequest 0)).outcome
        = .ok ⟨404, ⟨["not found"], none⟩⟩
      ∧ (404 : Int) ≠ 200
      ∧ (newClient.createCompletion (mockLib 404 true) ⟨0⟩ (countingRequest 0) 0).err.map
          GoError.Error
        = some "API returned unexpected status code: 404: model not found" := by
  have hr : (newClient.exchange (mockLib 404 true) ⟨0⟩ (countingRequest 0)).outcome
      = .ok ⟨404, ⟨["not found"], none⟩⟩ := rfl
  have h := unexpected_status_error (mockLib 404 true) newClient ⟨0⟩ (countingRequest 0) 0
    ⟨404, ⟨["not found"], none⟩⟩ hr (by decide)
  refine ⟨hr, by decide, ?_⟩
  rw [h.2.2.2.1 rfl]
  decide

theorem scanParts_ok_iff (parts : List ContentPart) (t : String) :
    scanParts parts "" false = .ok t
      ↔ (parts = [] ∧ t = "") ∨ parts = [.TextContent t] := by
  match parts with
  | [] => simp [scanParts, eq_comm]
  | [.TextContent a] => simp [scanParts]
  | .nonText k :: rest => simp [scanParts]
  | .TextContent a :: .TextContent b :: rest => simp [scanParts]
  | .TextContent a :: .nonText k :: rest => simp [scanParts]

theorem scanParts_ok_textOf (parts : List ContentPart) (t : String)
    (h : scanParts parts "" false = .ok t) : t = textOf parts := by
  rcases (scanParts_ok_iff parts t).1 h with ⟨h1, h2⟩ | h1
  · rw [h1, h2]; rfl
  · rw [h1]; rfl

theorem convertMessages_ok_iff (messages : List MessageContent) :
    ∀ (acc out : List Message),
      convertMessages messages acc = .ok out
        ↔ (∀ mc ∈ messages, mc.Parts = [] ∨ ∃ t, mc.Parts = [.TextContent t])
          ∧ out = acc ++ messages.map wireMessage := by
  induction messages with
  | nil => intro acc out; simp [convertMessages, eq_comm]
  | cons mc rest ih =>
    intro acc out
    cases hsc : scanParts mc.Parts "" false with
    | error e =>
      have hno : ¬ (mc.Parts = [] ∨ ∃ t, mc.Parts = [.TextContent t]) := by
        rintro (h | ⟨t, h⟩)
        · have := (scanParts_ok_iff mc.Parts "").2 (Or.inl ⟨h, rfl⟩)
          rw [hsc] at this; cases this
        · have := (scanParts_ok_iff mc.Parts t).2 (Or.inr h)
          rw [hsc] at this; cases this
      simp [convertMessages, hsc, hno]
    | ok t =>
      have hyes : mc.Parts = [] ∨ ∃ t, mc.Parts = [.TextContent t] := by
        rcases (scanParts_ok_iff mc.Parts t).1 hsc with ⟨h1, _⟩ | h1
        · exact Or.inl h1
        · exact Or.inr ⟨t, h1⟩
      have ht := scanParts_ok_textOf mc.Parts t hsc
      simp only [convertMessages, hsc, ih, List.mem_cons, forall_eq_or_imp, hyes, true_and,
        List.map_cons, ht, wireMessage, List.append_assoc, List.singleton_append]

/-- The part of the message conversion that agrees with its comment. When
every message has exactly one part and that part is a text part, the
conversion succeeds and gives, per message, the wire role and that text. A
message with more than one text part or with any non-text part makes
`GenerateContent` return a nil response and an error without handing a request
to the transport. -/
theorem conversion_rejects_bad_parts {σ : Type} (lib : Lib σ) (o : LLM) (ctx : Context)
    (messages : List MessageContent) (options : List (CallOption σ)) (s : σ) :
    ((∀ mc ∈ messages, ∃ t, mc.Parts = [.TextContent t]) →
        convertMessages messages [] = .ok (messages.map wireMessage))
      ∧ ((∃ mc ∈ messages, 2 ≤ mc.Parts.countP ContentPart.isText
            ∨ ∃ kind, ContentPart.nonText kind ∈ mc.Parts) →
          (o.GenerateContent lib ctx messages options s).response = none
            ∧ (o.GenerateContent lib ctx messages options s).err ≠ none
            ∧ (o.GenerateContent lib ctx messages options s).requests = []) := by
  refine ⟨?_, ?_⟩
  · intro h
    exact (convertMessages_ok_iff messages [] _).2 ⟨fun mc hmc => Or.inr (h mc hmc), rfl⟩
  · rintro ⟨mc, hmc, hbad⟩
    cases hconv : convertMessages messages [] with
    | ok msgs =>
      exfalso
      rcases ((convertMessages_ok_iff messages [] msgs).1 hconv).1 mc hmc with h | ⟨t, h⟩
      · rw [h] at hbad
        simp at hbad
      · rw [h] at hbad
        simp [ContentPart.isText] at hbad
    | error e => simp [LLM.GenerateContent, hconv]

/-- A message with two text parts: an error, and no request is sent. -/
theorem conversion_rejects_bad_parts_witness :
    ((⟨false, newClient⟩ : LLM).GenerateContent (mockLib 200 true) ⟨0⟩
        [⟨.ChatMessageTypeHuman, [.TextContent "a", .TextContent "b"]⟩] [] 0).err ≠ none
      ∧ ((⟨false, newClient⟩ : LLM).GenerateContent (mockLib 200 true) ⟨0⟩
        [⟨.ChatMessageTypeHuman, [.TextContent "a", .TextContent "b"]⟩] [] 0).requests = [] := by
  have h := (conversion_rejects_bad_parts (mockLib 200 true) ⟨false, newClient⟩ ⟨0⟩
      [⟨.ChatMessageTypeHuman, [.TextContent "a", .TextContent "b"]⟩] [] 0).2
    ⟨_, List.mem_singleton.2 rfl, Or.inl (by decide)⟩
  exact ⟨h.2.1, h.2.2⟩

/-- C8: the code departs from the claim, and from its own comment ("expect to
find a single Text part"), at a message without parts. No text part is found,
`foundText` is not checked after the loop, the message is converted to a wire
message with empty content, and `GenerateContent` sends the request and
returns no error. -/
theorem conversion_accepts_no_part :
    convertMessages [⟨.ChatMessageTypeHuman, []⟩] [] = .ok [⟨"user", ""⟩]
      ∧ ¬ (∀ mc ∈ [(⟨.ChatMessageTypeHuman, []⟩ : MessageContent)],
            ∃ t, mc.Parts = [.TextContent t])
      ∧ ((⟨false, newClient⟩ : LLM).GenerateContent (mockLib 200 true) ⟨0⟩
            [⟨.ChatMessageTypeHuman, []⟩] [] 0).err = none
      ∧ ((⟨false, newClient⟩ : LLM).GenerateContent (mockLib 200 true) ⟨0⟩
            [⟨.ChatMessageTypeHuman, []⟩] [] 0).requests.length = 1 := by
  refine ⟨rfl, by simp, rfl, rfl⟩

/-! ## Lemmas on the JSON form of a message -/

theorem DecodeRune_take (l : List Nat) : DecodeRune (l.take 4) = DecodeRune l := by
  match l with
  | [] => rfl
  | [_] => rfl
  | [_, _] => rfl
  | [_, _, _] => rfl
  | a :: b :: c :: d :: rest =>
    simp only [List.take_succ_cons, List.take_zero, DecodeRune]

/-- A valid encoding at the head of the input: it is the encoding of the rune
decoded, and what follows it plays no part. -/
theorem DecodeRune_valid (p0 : Nat) (rest : List Nat) (h80 : 0x80 ≤ p0)
    (hv : ¬ ((DecodeRune (p0 :: rest)).1 = RuneError ∧ (DecodeRune (p0 :: rest)).2 = 1)) :
    ∃ w tl, p0 :: rest = (p0 :: w) ++ tl
      ∧ (p0 :: w).length = (DecodeRune (p0 :: rest)).2
      ∧ EncodeRune (DecodeRune (p0 :: rest)).1 = p0 :: w
      ∧ ∀ Y, DecodeRune ((p0 :: w) ++ Y) = DecodeRune (p0 :: rest) := by
  have h1 : ¬ p0 < 0x80 := by omega
  by_cases h2 : p0 < 0xC2 ∨ 0xF4 < p0
  · exact absurd (by simp [DecodeRune, h1, h2]) hv
  match rest with
  | [] => exact absurd (by simp [DecodeRune, h1, h2]) hv
  | b1 :: rest1 =>
    by_cases h3 : b1 < (if p0 = 0xE0 then 0xA0 else if p0 = 0xF0 then 0x90 else 0x80)
        ∨ (if p0 = 0xED then 0x9F else if p0 = 0xF4 then 0x8F else 0xBF) < b1
    · exact absurd (by simp [DecodeRune, h1, h2, h3]) hv
    by_cases h4 : p0 < 0xE0
    · have hd : ∀ Y, DecodeRune (p0 :: b1 :: Y) = ((p0 % 32) * 64 + b1 % 64, 2) := by
        intro Y
        simp [DecodeRune, h1, h2, h3, h4]
      refine ⟨[b1], rest1, rfl, ?_, ?_, ?_⟩
      · rw [hd]; rfl
      · rw [hd]
        have e1 : ¬ (p0 = 0xE0) := by omega
        have e2 : ¬ (p0 = 0xF0) := by omega
        have e3 : ¬ (p0 = 0xED) := by omega
        have e4 : ¬ (p0 = 0xF4) := by omega
        simp only [e1, e2, e3, e4, if_false] at h3
        have c1 : ¬ ((p0 % 32) * 64 + b1 % 64 < 0x80) := by omega
        have c2 : (p0 % 32) * 64 + b1 % 64 < 0x800 := by omega
        simp only [EncodeRune, c1, c2, if_true, if_false, List.cons.injEq, and_true]
        constructor <;> omega
      · intro Y
        rw [hd, List.cons_append, List.cons_append, List.nil_append, hd]
    match rest1 with
    | [] => exact absurd (by simp [DecodeRune, h1, h2, h3, h4]) hv
    | b2 :: rest2 =>
      by_cases h5 : b2 < 0x80 ∨ 0xBF < b2
      · exact absurd (by simp [DecodeRune, h1, h2, h3, h4, h5]) hv
      by_cases h6 : p0 < 0xF0
      · have hd : ∀ Y, DecodeRune (p0 :: b1 :: b2 :: Y)
            = ((p0 % 16) * 4096 + (b1 % 64) * 64 + b2 % 64, 3) := by
          intro Y
          simp [DecodeRune, h1, h2, h3, h4, h5, h6]
        refine ⟨[b1, b2], rest2, rfl, ?_, ?_, ?_⟩
        · rw [hd]; rfl
        · rw [hd]
          have e2 : ¬ (p0 = 0xF0) := by omega
          have e4 : ¬ (p0 = 0xF4) := by omega
          simp only [e2, e4, if_false] at h3
          have c1 : ¬ ((p0 % 16) * 4096 + (b1 % 64) * 64 + b2 % 64 < 0x80) := by
            split_ifs at h3 <;> omega
          have c2 : ¬ ((p0 % 16) * 4096 + (b1 % 64) * 64 + b2 % 64 < 0x800) := by
            split_ifs at h3 <;> omega
          have c3 : ¬ (0x10FFFF < (p0 % 16) * 4096 + (b1 % 64) * 64 + b2 % 64
              ∨ (0xD800 ≤ (p0 % 16) * 4096 + (b1 % 64) * 64 + b2 % 64
                ∧ (p0 % 16) * 4096 + (b1 % 64) * 64 + b2 % 64 ≤ 0xDFFF)) := by
            split_ifs at h3 <;> omega
          have c4 : (p0 % 16) * 4096 + (b1 % 64) * 64 + b2 % 64 < 0x10000 := by omega
          simp only [EncodeRune, c1, c2, c3, c4, if_true, if_false, List.cons.injEq, and_true]
          refine ⟨?_, ?_, ?_⟩ <;> split_ifs at h3 <;> omega
        · intro Y
          rw [hd]
          exact hd _
      match rest2 with
      | [] => exact absurd (by simp [DecodeRune, h1, h2, h3, h4, h5, h6]) hv
      | b3 :: rest3 =>
        by_cases h7 : b3 < 0x80 ∨ 0xBF < b3
        · exact absurd (by simp [DecodeRune, h1, h2, h3, h4, h5, h6, h7]) hv
        have hd : ∀ Y, DecodeRune (p0 :: b1 :: b2 :: b3 :: Y)
            = ((p0 % 8) * 262144 + (b1 % 64) * 4096 + (b2 % 64) * 64 + b3 % 64, 4) := by
          intro Y
          simp [DecodeRune, h1, h2, h3, h4, h5, h6, h7]
        refine ⟨[b1, b2, b3], rest3, rfl, ?_, ?_, ?_⟩
        · rw [hd]; rfl
        · rw [hd]
          have e1 : ¬ (p0 = 0xE0) := by omega
          have e3 : ¬ (p0 = 0xED) := by omega
          simp only [e1, e3, if_false] at h3
          have c1 : ¬ ((p0 % 8) * 262144 + (b1 % 64) * 4096 + (b2 % 64) * 64 + b3 % 64 < 0x80) := by
            split_ifs at h3 <;> omega
          have c2 : ¬ ((p0 % 8) * 262144 + (b1 % 64) * 4096 + (b2 % 64) * 64 + b3 % 64 < 0x800) := by
            split_ifs at h3 <;> omega
          have c3 : ¬ (0x10FFFF < (p0 % 8) * 262144 + (b1 % 64) * 4096 + (b2 % 64) * 64 + b3 % 64
              ∨ (0xD800 ≤ (p0 % 8) * 262144 + (b1 % 64) * 4096 + (b2 % 64) * 64 + b3 % 64
                ∧ (p0 % 8) * 262144 + (b1 % 64) * 4096 + (b2 % 64) * 64 + b3 % 64 ≤ 0xDFFF)) := by
            split_ifs at h3 <;> omega
          have c4 : ¬ ((p0 % 8) * 262144 + (b1 % 64) * 4096 + (b2 % 64) * 64 + b3 % 64
              < 0x10000) := by
            split_ifs at h3 <;> omega
          simp only [EncodeRune, c1, c2, c3, c4, if_true, if_false, List.cons.injEq, and_true]
          refine ⟨?_, ?_, ?_, ?_⟩ <;> split_ifs at h3 <;> omega
        · intro Y
          rw [hd]
          exact hd _

theorem hexVal_hexDigit (n : Nat) (h : n < 16) : hexVal (hexDigit n) = some n := by
  interval_cases n <;> decide

theorem hex4_byte (n : Nat) (h : n < 256) :
    hex4 0x30 0x30 (hexDigit (n / 16)) (hexDigit (n % 16)) = some n := by
  have h1 := hexVal_hexDigit (n / 16) (by omega)
  have h2 := hexVal_hexDigit (n % 16) (by omega)
  have h0 : hexVal 0x30 = some 0 := by decide
  simp only [hex4, h0, h1, h2]
  congr 1
  omega

theorem getu4_escape (a b x d : Nat) (rest : List Nat) :
    getu4 (0x5C :: 0x75 :: a :: b :: x :: d :: rest) = (hex4 a b x d).map fun n => (n, rest) := by
  simp [getu4]

/-- An escape `\uXXXX` of a code unit that is no surrogate is read as the
encoding of that rune. -/
theorem unquoteBody_u (a b x d : Nat) (n : Nat) (h : hex4 a b x d = some n)
    (hn : n < 0xD800 ∨ 0xE000 ≤ n) (fuel : Nat) (rest acc : List Nat) :
    unquoteBody (fuel + 1) (0x5C :: 0x75 :: a :: b :: x :: d :: rest) acc
      = unquoteBody fuel rest (acc ++ EncodeRune n) := by
  have h1 : ¬ (55296 ≤ n ∧ n < 56320) := by omega
  have h2 : ¬ (56320 ≤ n ∧ n < 57344) := by omega
  rw [unquoteBody]
  simp only [getu4_escape, h, Option.map_some']
  simp [h1, h2]

theorem unquoteBody_u00 (c : Nat) (h : c < 0x80) (fuel : Nat) (rest acc : List Nat) :
    unquoteBody (fuel + 1)
        ([0x5C, 0x75, 0x30, 0x30, hexDigit (c / 16), hexDigit (c % 16)] ++ rest) acc
      = unquoteBody fuel rest (acc ++ [c]) := by
  have h4 := hex4_byte c (by omega)
  have := unquoteBody_u 0x30 0x30 (hexDigit (c / 16)) (hexDigit (c % 16)) c h4
    (by omega) fuel rest acc
  have he : EncodeRune c = [c] := by simp [EncodeRune, h]
  rw [he] at this
  exact this

theorem unquoteBody_verbatim (c : Nat) (fuel : Nat) (rest acc : List Nat) (h1 : c ≠ 0x22)
    (h2 : c ≠ 0x5C) (h3 : ¬ c < 0x20) (h4 : c < 0x80) :
    unquoteBody (fuel + 1) (c :: rest) acc = unquoteBody fuel rest (acc ++ [c]) := by
  simp only [unquoteBody, h1, h2, h3, h4, if_false, if_true]

/-- What `appendString` writes for a byte below 0x80 is read back as that
byte. -/
theorem unquoteBody_escapeByte (c : Nat) (hc : c < 0x80) (fuel : Nat) (rest acc : List Nat) :
    unquoteBody (fuel + 1) (escapeByte c ++ rest) acc = unquoteBody fuel rest (acc ++ [c]) := by
  unfold escapeByte
  by_cases h1 : c = 0x22 ∨ c = 0x5C
  · rcases h1 with h | h <;> subst h <;> rfl
  by_cases h3 : c = 0x08
  · subst h3; rfl
  by_cases h4 : c = 0x0C
  · subst h4; rfl
  by_cases h5 : c = 0x0A
  · subst h5; rfl
  by_cases h6 : c = 0x0D
  · subst h6; rfl
  by_cases h7 : c = 0x09
  · subst h7; rfl
  by_cases h8 : c < 0x20 ∨ c = 0x3C ∨ c = 0x3E ∨ c = 0x26
  · simp only [h1, h3, h4, h5, h6, h7, h8, if_true, if_false]
    exact unquoteBody_u00 c hc fuel rest acc
  simp only [h1, h3, h4, h5, h6, h7, h8, if_false]
  exact unquoteBody_verbatim c fuel rest acc (fun h => h1 (Or.inl h)) (fun h => h1 (Or.inr h))
    (fun h => h8 (Or.inl h)) hc

theorem unquoteBody_multibyte (c : Nat) (fuel : Nat) (rest acc : List Nat) (h : 0x80 ≤ c) :
    unquoteBody (fuel + 1) (c :: rest) acc
      = unquoteBody fuel ((c :: rest).drop (DecodeRune (c :: rest)).2)
          (acc ++ EncodeRune (DecodeRune (c :: rest)).1) := by
  have h1 : ¬ c = 0x22 := by omega
  have h2 : ¬ c = 0x5C := by omega
  have h3 : ¬ c < 0x20 := by omega
  have h4 : ¬ c < 0x80 := by omega
  simp only [unquoteBody, h1, h2, h3, h4, if_false]

theorem unquoteBody_ufffd (fuel : Nat) (rest acc : List Nat) :
    unquoteBody (fuel + 1) ([0x5C, 0x75, 0x66, 0x66, 0x66, 0x64] ++ rest) acc
      = unquoteBody fuel rest (acc ++ [0xEF, 0xBF, 0xBD]) :=
  unquoteBody_u 0x66 0x66 0x66 0x64 0xFFFD (by decide) (by omega) fuel rest acc

theorem unquoteBody_u202 (c : Nat) (hc : c = 0x2028 ∨ c = 0x2029) (fuel : Nat)
    (rest acc : List Nat) :
    unquoteBody (fuel + 1) ([0x5C, 0x75, 0x32, 0x30, 0x32, hexDigit (c % 16)] ++ rest) acc
      = unquoteBody fuel rest (acc ++ EncodeRune c) := by
  rcases hc with h | h <;> subst h
  · exact unquoteBody_u 0x32 0x30 0x32 _ 0x2028 (by decide) (by omega) fuel rest acc
  · exact unquoteBody_u 0x32 0x30 0x32 _ 0x2029 (by decide) (by omega) fuel rest acc

/-- A string literal written by `appendString` is read back as the string with
each byte outside a valid encoding replaced by the bytes of U+FFFD. -/
theorem unquoteBody_appendStringLoop (n : Nat) :
    ∀ (src rest acc : List Nat) (fuel : Nat), src.length ≤ n → n < fuel →
      unquoteBody fuel (appendStringLoop n src ++ 0x22 :: rest) acc
        = some (acc ++ coerceLoop n src, rest) := by
  induction n with
  | zero =>
    intro src rest acc fuel hlen hfuel
    obtain ⟨f, rfl⟩ : ∃ f, fuel = f + 1 := ⟨fuel - 1, by omega⟩
    simp [appendStringLoop, coerceLoop, unquoteBody]
  | succ n ih =>
    intro src rest acc fuel hlen hfuel
    obtain ⟨f, rfl⟩ : ∃ f, fuel = f + 1 := ⟨fuel - 1, by omega⟩
    match src with
    | [] => simp [appendStringLoop, coerceLoop, unquoteBody]
    | b :: tl =>
      have htl : tl.length ≤ n := by simpa using hlen
      by_cases hb : b < 0x80
      · have hd : DecodeRune (b :: tl) = (b, 1) := by simp [DecodeRune, hb]
        have hne : ¬ (b = RuneError ∧ (1 : Nat) = 1) := by
          unfold RuneError; omega
        simp only [appendStringLoop, hb, if_true, coerceLoop, hd, hne, if_false,
          List.append_assoc]
        rw [unquoteBody_escapeByte b hb, ih tl rest (acc ++ [b]) f htl (by omega)]
        have hne2 : ¬ b = RuneError := by unfold RuneError; omega
        simp [hne2]
      · simp only [appendStringLoop, hb, if_false, coerceLoop, DecodeRune_take]
        by_cases hv : (DecodeRune (b :: tl)).1 = RuneError ∧ (DecodeRune (b :: tl)).2 = 1
        · simp only [hv, and_self, if_true, List.append_assoc]
          rw [unquoteBody_ufffd, ih tl rest _ f htl (by omega)]
          simp
        · obtain ⟨w, tl2, hsplit, hwlen, henc, hstable⟩ :=
            DecodeRune_valid b tl (by omega) hv
          have htake : (b :: tl).take (DecodeRune (b :: tl)).2 = b :: w := by
            rw [← hwlen, hsplit]
            exact List.take_left' rfl
          have hdrop : (b :: tl).drop (DecodeRune (b :: tl)).2 = tl2 := by
            rw [← hwlen, hsplit]
            exact List.drop_left' rfl
          have htl2 : tl2.length ≤ n := by
            have := congrArg List.length hsplit
            simp only [List.length_cons, List.length_append] at this
            omega
          simp only [hv, if_false, htake, hdrop]
          by_cases hsep : (DecodeRune (b :: tl)).1 = 0x2028 ∨ (DecodeRune (b :: tl)).1 = 0x2029
          · simp only [hsep, if_true, List.append_assoc]
            rw [unquoteBody_u202 _ hsep, ih tl2 rest _ f htl2 (by omega), henc]
            simp
          · simp only [hsep, if_false, List.cons_append, List.append_assoc]
            rw [unquoteBody_multibyte b f _ acc (by omega)]
            have hst2 : DecodeRune (b :: (w ++ (appendStringLoop n tl2 ++ 0x22 :: rest)))
                = DecodeRune (b :: tl) := by
              have := hstable (appendStringLoop n tl2 ++ 0x22 :: rest)
              simpa using this
            rw [hst2, henc]
            have hdrop2 : (b :: (w ++ (appendStringLoop n tl2 ++ 0x22 :: rest))).drop
                (DecodeRune (b :: tl)).2 = appendStringLoop n tl2 ++ 0x22 :: rest := by
              rw [← hwlen, ← List.cons_append]
              exact List.drop_left' rfl
            rw [hdrop2, ih tl2 rest _ f htl2 (by omega)]
            simp

/-- A valid string is left as it is. -/
theorem coerceLoop_valid (n : Nat) :
    ∀ src : List Nat, src.length ≤ n → validLoop n src = true → coerceLoop n src = src := by
  induction n with
  | zero =>
    intro src hlen _
    have : src = [] := List.length_eq_zero.1 (by omega)
    subst this
    rfl
  | succ n ih =>
    intro src hlen hvalid
    match src with
    | [] => rfl
    | b :: tl =>
      by_cases hv : (DecodeRune (b :: tl)).1 = RuneError ∧ (DecodeRune (b :: tl)).2 = 1
      · simp [validLoop, hv] at hvalid
      · simp only [validLoop, hv, if_false] at hvalid
        simp only [coerceLoop, hv, if_false]
        have hpos : 1 ≤ (DecodeRune (b :: tl)).2 := by
          by_cases hb : b < 0x80
          · simp [DecodeRune, hb]
          · obtain ⟨w, tl2, _, hwlen, _, _⟩ := DecodeRune_valid b tl (by omega) hv
            rw [← hwlen]
            simp
        have hlen2 : ((b :: tl).drop (DecodeRune (b :: tl)).2).length ≤ n := by
          simp only [List.length_drop, List.length_cons] at hlen ⊢
          omega
        rw [ih _ hlen2 hvalid, List.take_append_drop]

theorem escapeByte_length (c : Nat) : 1 ≤ (escapeByte c).length := by
  unfold escapeByte
  repeat' split
  all_goals exact Nat.le_add_left 1 _

theorem length_le_appendStringLoop (n : Nat) :
    ∀ src : List Nat, src.length ≤ n → src.length ≤ (appendStringLoop n src).length := by
  induction n with
  | zero => intro src h; exact Nat.le_trans h (Nat.zero_le _)
  | succ n ih =>
    intro src hlen
    match src with
    | [] => simp
    | b :: tl =>
      have htl : tl.length ≤ n := by simpa using hlen
      by_cases hb : b < 0x80
      · have h1 := escapeByte_length b
        have h2 := ih tl htl
        simp only [appendStringLoop, hb, if_true, List.length_append, List.length_cons]
        omega
      · simp only [appendStringLoop, hb, if_false, DecodeRune_take]
        by_cases hv : (DecodeRune (b :: tl)).1 = RuneError ∧ (DecodeRune (b :: tl)).2 = 1
        · have h2 := ih tl htl
          simp only [hv, and_self, if_true, List.length_append, List.length_cons,
            List.length_nil]
          omega
        · obtain ⟨w, tl2, hsplit, hwlen, henc, _⟩ := DecodeRune_valid b tl (by omega) hv
          have htake : (b :: tl).take (DecodeRune (b :: tl)).2 = b :: w := by
            rw [← hwlen, hsplit]
            exact List.take_left' rfl
          have hdrop : (b :: tl).drop (DecodeRune (b :: tl)).2 = tl2 := by
            rw [← hwlen, hsplit]
            exact List.drop_left' rfl
          have hlen2 := congrArg List.length hsplit
          simp only [List.length_cons, List.length_append] at hlen2 hlen
          have h2 := ih tl2 (by omega)
          have hw4 : (b :: w).length ≤ 4 := by
            rw [← henc]
            unfold EncodeRune
            repeat' split
            all_goals simp
          simp only [List.length_cons] at hw4
          simp only [hv, if_false, htake, hdrop]
          split
          · simp only [List.length_append, List.length_cons, List.length_nil]
            omega
          · simp only [List.length_append, List.length_cons]
            omega

theorem skipWS_cons (c : Nat) (l : List Nat) (h : isJSONSpace c = false) :
    skipWS (c :: l) = c :: l := by
  simp [skipWS, List.dropWhile, h]

theorem quote_append (s rest : List Nat) :
    quote s ++ rest = 0x22 :: (appendStringLoop s.length s ++ 0x22 :: rest) := by
  simp [quote]

theorem unquoteBody_key (s rest : List Nat) :
    unquoteBody (appendStringLoop s.length s ++ 0x22 :: rest).length
      (appendStringLoop s.length s ++ 0x22 :: rest) [] = some (coerceUTF8 s, rest) := by
  have := unquoteBody_appendStringLoop s.length s rest []
    (appendStringLoop s.length s ++ 0x22 :: rest).length (Nat.le_refl _)
    (by
      have := length_le_appendStringLoop s.length s (Nat.le_refl _)
      simp only [List.length_append, List.length_cons]
      omega)
  simpa [coerceUTF8] using this

theorem skipWS_quote (s rest : List Nat) : skipWS (quote s ++ rest) = quote s ++ rest := by
  rw [quote_append]
  exact skipWS_cons _ _ (by decide)

/-- A string literal written by `quote` is read back as the coerced string. -/
theorem parseValue_quote (s : List Nat) (fuel depth : Nat) (rest : List Nat) :
    parseValue (fuel + 1) depth (quote s ++ rest) = some (.string (coerceUTF8 s), rest) := by
  rw [quote_append, parseValue]
  simp only [unquoteBody_key]
  simp

theorem coerceUTF8_role : coerceUTF8 (ascii "role") = ascii "role" := by decide

theorem coerceUTF8_content : coerceUTF8 (ascii "content") = ascii "content" := by decide

/-- The members `"role":<R>,"content":<C>` and the closing brace, as
`Marshal` writes them, are read back as the two members. -/
theorem parseMembers_message (R C : List Nat) (fuel depth : Nat) (rest : List Nat) :
    parseMembers (fuel + 3) depth
        (quote (ascii "role") ++ 0x3A :: (quote R ++ 0x2C ::
          (quote (ascii "content") ++ 0x3A :: (quote C ++ 0x7D :: rest)))) []
      = some (.object [(ascii "role", .string (coerceUTF8 R)),
          (ascii "content", .string (coerceUTF8 C))], rest) := by
  have hc1 : skipWS (0x3A :: (quote R ++ 0x2C ::
      (quote (ascii "content") ++ 0x3A :: (quote C ++ 0x7D :: rest))))
      = 0x3A :: (quote R ++ 0x2C ::
        (quote (ascii "content") ++ 0x3A :: (quote C ++ 0x7D :: rest))) :=
    skipWS_cons _ _ (by decide)
  have hc2 : skipWS (0x2C :: (quote (ascii "content") ++ 0x3A :: (quote C ++ 0x7D :: rest)))
      = 0x2C :: (quote (ascii "content") ++ 0x3A :: (quote C ++ 0x7D :: rest)) :=
    skipWS_cons _ _ (by decide)
  have hc3 : skipWS (0x3A :: (quote C ++ 0x7D :: rest)) = 0x3A :: (quote C ++ 0x7D :: rest) :=
    skipWS_cons _ _ (by decide)
  have hc4 : skipWS (0x7D :: rest) = 0x7D :: rest := skipWS_cons _ _ (by decide)
  have hne : ¬ ((0x7D : Nat) = 0x2C) := by decide
  rw [quote_append, parseMembers]
  simp only [if_true, unquoteBody_key, hc1, skipWS_quote, parseValue_quote, hc2]
  rw [quote_append, parseMembers]
  simp only [if_true, unquoteBody_key, hc3, skipWS_quote, parseValue_quote, hc4, hne, if_false,
    coerceUTF8_role, coerceUTF8_content]
  rfl

theorem parseValue_object (fuel depth : Nat) (c2 : Nat) (rest2 : List Nat)
    (h1 : ¬ depth ≥ maxNestingDepth) (h2 : isJSONSpace c2 = false) (h3 : ¬ c2 = 0x7D) :
    parseValue (fuel + 1) depth (0x7B :: c2 :: rest2)
      = parseMembers fuel (depth + 1) (c2 :: rest2) [] := by
  rw [parseValue]
  simp only [if_true, h1, if_false, skipWS_cons c2 rest2 h2, h3]

/-- The text `Marshal` writes parses as an object with exactly the members
"role" and "content", in this order. -/
theorem parseJSON_Marshal (m : RawMessage) :
    parseJSON m.Marshal
      = some (.object [(ascii "role", .string (coerceUTF8 m.Role)),
          (ascii "content", .string (coerceUTF8 m.Content))]) := by
  have hdata : m.Marshal
      = 0x7B :: (quote (ascii "role") ++ 0x3A :: (quote m.Role ++ 0x2C ::
          (quote (ascii "content") ++ 0x3A :: (quote m.Content ++ 0x7D :: [])))) := rfl
  have hX := quote_append (ascii "role") (0x3A :: (quote m.Role ++ 0x2C ::
    (quote (ascii "content") ++ 0x3A :: (quote m.Content ++ 0x7D :: []))))
  have hfuel : 3 ≤ (quote (ascii "role") ++ 0x3A :: (quote m.Role ++ 0x2C ::
      (quote (ascii "content") ++ 0x3A :: (quote m.Content ++ 0x7D :: [])))).length + 1 := by
    rw [hX]
    simp only [List.length_cons, List.length_append]
    omega
  obtain ⟨f, hf⟩ : ∃ f, (quote (ascii "role") ++ 0x3A :: (quote m.Role ++ 0x2C ::
      (quote (ascii "content") ++ 0x3A :: (quote m.Content ++ 0x7D :: [])))).length + 1
      = f + 3 := ⟨_, (Nat.sub_add_cancel hfuel).symm⟩
  have hm := parseMembers_message m.Role m.Content f 1 []
  unfold parseJSON
  rw [hdata, skipWS_cons _ _ (by decide), List.length_cons, hf]
  rw [hX] at hm ⊢
  rw [parseValue_object _ _ _ _ (by decide) (by decide) (by decide), hm]
  rfl

/-- Reading back what `Marshal` wrote gives the message with both fields
coerced to valid UTF-8, whatever the target held before. -/
theorem Unmarshal_Marshal (m target : RawMessage) :
    RawMessage.Unmarshal m.Marshal target
      = (⟨coerceUTF8 m.Role, coerceUTF8 m.Content⟩, none) := by
  unfold RawMessage.Unmarshal
  rw [parseJSON_Marshal]
  rfl

theorem coerceUTF8_valid (s : List Nat) (h : ValidString s = true) : coerceUTF8 s = s :=
  coerceLoop_valid s.length s (Nat.le_refl _) h

/-! ## The claim on the JSON form of a message -/

/-- C7, amended: for every message whose role and content are valid UTF-8,
serializing it and deserializing the result succeeds and gives the message
back (whatever the target held before); for every message the serialized form
is an object with exactly the two members "role" and "content", in this order,
each a string literal; the message of the test, role "assistant" and content
"hello", serializes to the text the test expects; and in general the fields
come back with each byte outside a valid encoding replaced by U+FFFD. -/
theorem message_json_roundtrip (m target : RawMessage) :
    (ValidString m.Role = true → ValidString m.Content = true →
        RawMessage.Unmarshal m.Marshal target = (m, none))
      ∧ parseJSON m.Marshal
        = some (.object [(ascii "role", .string (coerceUTF8 m.Role)),
            (ascii "content", .string (coerceUTF8 m.Content))])
      ∧ m.Marshal
        = ascii "\x7b\"role\":" ++ quote m.Role ++ ascii ",\"content\":" ++ quote m.Content
          ++ ascii "\x7d"
      ∧ (Message.raw ⟨"assistant", "hello"⟩).Marshal
        = ascii "\x7b\"role\":\"assistant\",\"content\":\"hello\"\x7d"
      ∧ RawMessage.Unmarshal m.Marshal target
        = (⟨coerceUTF8 m.Role, coerceUTF8 m.Content⟩, none) := by
  have h1 : quote (ascii "role") = ascii "\"role\"" := by decide
  have h2 : quote (ascii "content") = ascii "\"content\"" := by decide
  refine ⟨?_, parseJSON_Marshal m, ?_, by decide, Unmarshal_Marshal m target⟩
  · intro hR hC
    rw [Unmarshal_Marshal, coerceUTF8_valid _ hR, coerceUTF8_valid _ hC]
  · simp only [RawMessage.Marshal, h1, h2]
    simp [ascii]

theorem message_json_roundtrip_witness :
    ValidString (ascii "user") = true
      ∧ ValidString [0x68, 0x69, 0x20, 0xC3, 0xA9, 0xE2, 0x80, 0xA8, 0xF0, 0x9F, 0x98, 0x80] = true
      ∧ RawMessage.Unmarshal
          (RawMessage.Marshal
            ⟨ascii "user", [0x68, 0x69, 0x20, 0xC3, 0xA9, 0xE2, 0x80, 0xA8, 0xF0, 0x9F, 0x98, 0x80]⟩)
          ⟨[], []⟩
        = (⟨ascii "user", [0x68, 0x69, 0x20, 0xC3, 0xA9, 0xE2, 0x80, 0xA8, 0xF0, 0x9F, 0x98, 0x80]⟩,
            none) :=
  ⟨by decide, by decide,
    (message_json_roundtrip
      ⟨ascii "user", [0x68, 0x69, 0x20, 0xC3, 0xA9, 0xE2, 0x80, 0xA8, 0xF0, 0x9F, 0x98, 0x80]⟩
      ⟨[], []⟩).1 (by decide) (by decide)⟩

/-- C7, as stated, fails: a message whose content is the single byte 0xFF is
serialized with the escape of U+FFFD and comes back with the three bytes of
U+FFFD as its content. -/
theorem message_roundtrip_fails_on_invalid_utf8 :
    RawMessage.Marshal ⟨ascii "user", [0xFF]⟩
        = ascii "\x7b\"role\":\"user\",\"content\":\"\\ufffd\"\x7d"
      ∧ RawMessage.Unmarshal (RawMessage.Marshal ⟨ascii "user", [0xFF]⟩) ⟨[], []⟩
        = (⟨ascii "user", [0xEF, 0xBF, 0xBD]⟩, none)
      ∧ RawMessage.Unmarshal (RawMessage.Marshal ⟨ascii "user", [0xFF]⟩) ⟨[], []⟩
        ≠ (⟨ascii "user", [0xFF]⟩, none) := by
  decide

/-! ## Further properties of the code -/

/-- X1: the role mapping of `typeToRole`: system, human, generic, ai, function
and tool map to "system", "user", "user", "assistant", "function" and "tool". -/
theorem typeToRole_mapping :
    typeToRole .ChatMessageTypeSystem = "system"
      ∧ typeToRole .ChatMessageTypeHuman = "user"
      ∧ typeToRole .ChatMessageTypeGeneric = "user"
      ∧ typeToRole .ChatMessageTypeAI = "assistant"
      ∧ typeToRole .ChatMessageTypeFunction = "function"
      ∧ typeToRole .ChatMessageTypeTool = "tool" :=
  ⟨rfl, rfl, rfl, rfl, rfl, rfl⟩

/-- X2: when the request has a callback, `createCompletion` sets the stream
flag before the request is serialized, and keeps the callback. -/
theorem stream_flag_forced {σ : Type} (lib : Lib σ) (c : Client) (ctx : Context)
    (payload : CompletionRequest σ) (s : σ) (h : payload.StreamingFunc.isSome = true) :
    (c.createCompletion lib ctx payload s).payload.Stream = true
      ∧ (c.createCompletion lib ctx payload s).payload.StreamingFunc = payload.StreamingFunc := by
  have hd := (setCompletionDefaults_frame lib c payload)
  have hx : (c.exchange lib ctx payload).payload
      = { (c.setCompletionDefaults lib payload).2 with Stream := true } := by
    simp only [Client.exchange, hd, h, if_true]
    split
    · rfl
    · split <;> rfl
  have hy : (c.createCompletion lib ctx payload s).payload = (c.exchange lib ctx payload).payload := by
    simp only [Client.createCompletion]
    split <;> rfl
  rw [hy, hx]
  exact ⟨rfl, hd⟩

theorem stream_flag_forced_witness :
    (countingRequest 0).StreamingFunc.isSome = true
      ∧ (newClient.createCompletion (mockLib 200 true) ⟨0⟩ (countingRequest 0) 0).payload.Stream
        = true :=
  ⟨rfl, (stream_flag_forced (mockLib 200 true) newClient ⟨0⟩ (countingRequest 0) 0 rfl).1⟩

/-- X3: a read failure of the scanner after lines that all decode (none of
them the sentinel), with a callback that returns nil on every event: a nil
response and the read error wrapped with "error reading streaming response: ". -/
theorem read_failure_discards {σ : Type} (decode : Decoder String StreamedChatResponsePayload)
    (ctx : Context) (payload : CompletionRequest σ) (s : σ) (status : Int)
    (lines : List String) (e : GoError)
    (hTag : ∀ data, (decode data).1.Error = none)
    (hlines : ∀ l ∈ lines, l ≠ "" → lineData l ≠ "[DONE]" ∧ (decode (lineData l)).2 = none)
    (hCb : ∀ g, payload.StreamingFunc = some g →
      ∀ r ∈ callbackReturns g ctx s ((deltas (decodedChunks decode lines)).map bytesOf), r = none) :
    (parseStreamingChatResponse decode ctx ⟨status, ⟨lines, some e⟩⟩ payload s).response = none
      ∧ (parseStreamingChatResponse decode ctx ⟨status, ⟨lines, some e⟩⟩ payload s).err
        = some (.wrap "error reading streaming response: " e) := by
  have hall := streamWorker_append decode (some e) [] lines hlines
  rw [List.append_nil] at hall
  have hgood : ∀ ch ∈ decodedChunks decode lines, ch.Error = none := by
    intro ch hch
    simp only [decodedChunks, List.mem_map] at hch
    obtain ⟨l, _, rfl⟩ := hch
    exact hTag _
  have h := combineLoop_error_after ctx payload
    { StreamedChatResponsePayload.zero with
      Error := some (.wrap "error reading streaming response: " e) }
    (.wrap "error reading streaming response: " e) rfl [] (decodedChunks decode lines)
    { CompletionResponse.zero with Choices := [CompletionResponseChoice.zero] } [] s hgood hCb
  simp only [parseStreamingChatResponse, combineStreamingChatResponse, hall, streamWorker]
  exact ⟨h.1, h.2.1⟩

theorem read_failure_discards_witness :
    (∀ data, (mockDecode data).1.Error = none)
      ∧ (parseStreamingChatResponse mockDecode ⟨0⟩ ⟨200, ⟨[mockBody, ""], some (.new "EOF")⟩⟩
          (countingRequest 0) 0).err
        = some (.wrap "error reading streaming response: " (.new "EOF")) := by
  have hTag : ∀ data, (mockDecode data).1.Error = none := by
    intro data
    unfold mockDecode
    split <;> rfl
  exact ⟨hTag, (read_failure_discards mockDecode ⟨0⟩ (countingRequest 0) 0 200 [mockBody, ""]
    (.new "EOF") hTag (by decide) (by intro g hg; cases hg; decide)).2⟩

/-- X4: a line of white space only is not an empty line: the goroutine hands
its payload, the empty string, to the decoder. -/
theorem whitespace_line_is_decoded (decode : Decoder String StreamedChatResponsePayload)
    (scanErr : Option GoError) (rest : List String) :
    (streamWorker decode scanErr ("  " :: rest)).decoded.head? = some "" := by
  have h1 : ("  " : String) ≠ "" := by decide
  have h2 : lineData "  " = "" := by decide
  have h3 : ("" : String) ≠ "[DONE]" := by decide
  simp only [streamWorker, h1, if_false, h2, h3]
  split <;> rfl

end Lingyi
